import Mathlib

set_option autoImplicit false

/-!
Verification development for the mongosql compiler core.

This file shallowly embeds the parts of the repository needed to settle the
frozen claims: the schema lattice and `Satisfaction` containment, the IR
data model and (spec-modelled) schema inference, the algebrizer
(`src/mongosql/src/algebrizer/definitions.rs`), the subquery-expression
desugarer pass (`src/mongosql/src/air/desugarer/subquery.rs`) over the Air
data model, and the MQL code generator (`src/mongosql/src/codegen/mql.rs`).

Modelling conventions:
- Rust `u16`/`u32`/`u64` counters, scope levels and sizes are modelled as
  `Nat` (none of the embedded code can overflow them); the one `u8` counter
  in the subquery desugarer is modelled with an explicit `% 256` because its
  width is the subject of a claim.
- Rust `Result<T, E>` is `Except E T`; `panic!`/`unreachable!()` sites are
  modelled as distinguished error constructors, documented at each site.
- Rust `f64` literal payloads are carried as an opaque `Int` tag; no
  floating-point arithmetic is modelled (none is performed by the embedded
  code, which only moves literals around).
- `LinkedHashMap`/`BTreeMap`s are modelled as association lists in
  insertion/iteration order.
-/

namespace MongoSql

/-! ## Binding-tuple keys (`ir::binding_tuple`) -/

/-- A datasource name: either a named source or the `Bottom` sentinel. -/
inductive DatasourceName where
  | named (s : String)
  | bottom
deriving DecidableEq, Repr

/-- A binding-tuple key: a datasource name together with a scope level. -/
structure Key where
  datasource : DatasourceName
  scope : Nat
deriving DecidableEq, Repr

/-- `Key::bot(scope)`: the `Bottom` key at a given scope. -/
def Key.bot (scope : Nat) : Key := ⟨.bottom, scope⟩

/-! ## Schema lattice and Satisfaction

Modelled from the spec: the `crate::schema` module (the `Schema` type,
`Satisfaction`, and `contains_field`) is not under `src/`; only its users
are.  The definitions below follow spec §3.2 and §4.1. -/

/-- Three-valued containment. -/
inductive Satisfaction where
  | must
  | may
  | not
deriving DecidableEq, Repr

/-- Atomic schema kinds (spec §3.2). -/
inductive Atomic where
  | null
  | boolean
  | string
  | integer
  | long
  | double
  | decimal
  | date
  | objectId
  | binData
deriving DecidableEq, Repr

/-- Modelled from the spec: structural schemas (spec §3.2).  `document`
carries its key schemas, the set of required keys, and the
`additional_properties` flag. -/
inductive Schema where
  | any
  | missing
  | anyOf (schemas : List Schema)
  | atomic (a : Atomic)
  | array (elem : Schema)
  | document (keys : List (String × Schema)) (required : List String)
      (additionalProperties : Bool)

/-- `ANY_DOCUMENT`: the schema of an arbitrary document. -/
def ANY_DOCUMENT : Schema := .document [] [] true

/-- Combine two branch satisfactions: `must` only if both are `must`,
`not` only if both are `not`, otherwise `may`. -/
def satPair : Satisfaction → Satisfaction → Satisfaction
  | .must, .must => .must
  | .not, .not => .not
  | _, _ => .may

/-- Combine the satisfactions of the branches of an `AnyOf`: `must` only if
every branch is `must`, `not` only if every branch is `not`, otherwise
`may`.  An empty `AnyOf` contains no field (`not`).  Modelled from the
spec (§4.1). -/
def combineAnyOfSat : List Satisfaction → Satisfaction
  | [] => .not
  | s :: rest =>
    match rest with
    | [] => s
    | r :: rest' => satPair s (combineAnyOfSat (r :: rest'))

mutual

/-- Modelled from the spec: `schema.contains_field(name) → Satisfaction`
(spec §3.2/§4.1).  A document yields `must` for required keys, `may` for
optional keys (declared but not required, or admitted by
`additional_properties`), and `not` otherwise; `AnyOf` distributes; `Any`
may be a document containing the field. -/
def Schema.containsField : Schema → String → Satisfaction
  | .any, _ => .may
  | .missing, _ => .not
  | .atomic _, _ => .not
  | .array _, _ => .not
  | .anyOf schemas, f => combineAnyOfSat (containsFieldList schemas f)
  | .document keys required additional, f =>
    if f ∈ required then .must
    else if (keys.map Prod.fst).contains f then .may
    else if additional then .may
    else .not

/-- Satisfactions of a field in each branch of an `AnyOf`. -/
def containsFieldList : List Schema → String → List Satisfaction
  | [], _ => []
  | s :: rest, f => s.containsField f :: containsFieldList rest f

end

mutual

/-- Modelled from the spec: whether a schema `Must` satisfy "any document"
(used for the checks that project bindings and array elements are
documents).  An empty `AnyOf` is the empty union and is not a document. -/
def Schema.mustBeDocument : Schema → Bool
  | .document _ _ _ => true
  | .anyOf [] => false
  | .anyOf (s :: rest) => s.mustBeDocument && allMustBeDocument rest
  | _ => false

/-- Whether every schema of a list must be a document. -/
def allMustBeDocument : List Schema → Bool
  | [] => true
  | s :: rest => s.mustBeDocument && allMustBeDocument rest

end

/-- Modelled from the spec: whether a schema `Must` satisfy Missing
(used to compute the `required` set of an inferred document schema). -/
def Schema.isMissingLike : Schema → Bool
  | .missing => true
  | .anyOf [] => false
  | .anyOf (s :: rest) =>
    s.isMissingLike || (Schema.anyOf rest).isMissingLike
  | _ => false

/-- Modelled from the spec: whether a schema may be a boolean or nullish
value (the check applied to filter and join conditions).  Kept permissive:
only schemas that can never be boolean-or-nullish are rejected. -/
def Schema.mayBeBooleanOrNullish : Schema → Bool
  | .any => true
  | .missing => true
  | .atomic .boolean => true
  | .atomic .null => true
  | .anyOf [] => false
  | .anyOf (s :: rest) =>
    s.mayBeBooleanOrNullish || (Schema.anyOf rest).mayBeBooleanOrNullish
  | _ => false

/-! ## Schema environments -/

/-- A schema environment: a binding tuple of schemas, modelled as an
association list in iteration order. -/
abbrev SchemaEnvironment := List (Key × Schema)

/-- Look a key up in a schema environment. -/
def SchemaEnvironment.find (env : SchemaEnvironment) (k : Key) : Option Schema :=
  match env with
  | ([] : List (Key × Schema)) => none
  | kv :: rest => if kv.1 = k then some kv.2 else SchemaEnvironment.find rest k

/-- Whether a key is bound in a schema environment. -/
def SchemaEnvironment.containsKey (env : SchemaEnvironment) (k : Key) : Bool :=
  (SchemaEnvironment.find env k).isSome

/-- `SchemaEnvironment::merge`: add the entries of `other`, failing with the
offending key on a duplicate (cf. `with_merged_mappings`, which maps the
failure to `Error::DuplicateKey`). -/
def SchemaEnvironment.merge (env other : SchemaEnvironment) :
    Except Key SchemaEnvironment :=
  match other with
  | ([] : List (Key × Schema)) => .ok env
  | kv :: rest =>
    if SchemaEnvironment.containsKey env kv.1 then .error kv.1
    else SchemaEnvironment.merge (env ++ [kv]) rest

/-- `nearest_scope_for_datasource`: the greatest scope `≤ scope_level` at
which the datasource is bound, scanning downward.  Modelled from the spec
(§4.3, qualified-reference resolution); the implementation is not under
`src/`. -/
def SchemaEnvironment.nearestScopeForDatasource (env : SchemaEnvironment)
    (ds : DatasourceName) : Nat → Option Nat
  | 0 => if SchemaEnvironment.containsKey env ⟨ds, 0⟩ then some 0 else none
  | n + 1 =>
    if SchemaEnvironment.containsKey env ⟨ds, n + 1⟩ then some (n + 1)
    else SchemaEnvironment.nearestScopeForDatasource env ds n

/-! ## IR data model

Modelled from the spec (§3.3): the `ir` definitions module is not under
`src/`; its shape is pinned by its users (`algebrizer/definitions.rs`,
`ir/test.rs`, `codegen/mql.rs`). -/

namespace Ir

/-- IR literals.  `double` carries its `f64` payload as an opaque tag; no
arithmetic is performed on it by any embedded code. -/
inductive Literal where
  | null
  | boolean (b : Bool)
  | string (s : String)
  | integer (i : Int)
  | long (l : Int)
  | double (bits : Int)
deriving DecidableEq, Repr

/-- IR scalar functions (the set used by `algebrizer/definitions.rs`). -/
inductive ScalarFunction where
  | add | and | concat | div | eq | gt | gte | lt | lte | mul | neq | or | sub
  | bitLength | charLength | coalesce | currentTimestamp | lower | nullIf
  | octetLength | position | size | slice | substring | upper
  | pos | neg | notFn
  | between | ltrim | rtrim | btrim
  | year | month | day | hour | minute | second
  | computedFieldAccess | mergeObjects
deriving DecidableEq, Repr

/-- IR aggregation functions. -/
inductive AggregationFunction where
  | addToArray | avg | count | first | last | max | mergeDocuments | min
  | stddevPop | stddevSamp | sum
deriving DecidableEq, Repr

/-- Subquery comparison operators. -/
inductive SubqueryComparisonOp where
  | lt | lte | neq | eq | gt | gte
deriving DecidableEq, Repr

/-- Subquery comparison modifiers. -/
inductive SubqueryModifier where
  | any | all
deriving DecidableEq, Repr

/-- IR join types: outer joins are always `left` in the IR. -/
inductive JoinType where
  | left | inner
deriving DecidableEq, Repr

/-- IR set operations. -/
inductive SetOperation where
  | unionAll
deriving DecidableEq, Repr

/-- Target types for `Cast`/`TypeAssertion` (mirrors `ast::Type`). -/
inductive IrType where
  | array | binData | boolean | datetime | dbPointer | decimal128 | document
  | double | int32 | int64 | javascript | javascriptWithScope | maxKey
  | minKey | null | objectId | regularExpression | string | symbol
  | timestamp | undefined
deriving DecidableEq, Repr

/-- `ir::TypeOrMissing`. -/
inductive TypeOrMissing where
  | type (t : IrType)
  | missing
deriving DecidableEq, Repr

mutual

/-- IR stages (spec §3.3). -/
inductive Stage where
  | collection (db : String) (collection : String)
  | array (array : List Expression) (alias_ : String)
  | project (source : Stage) (expression : List (Key × Expression))
  | filter (source : Stage) (condition : Expression)
  | group (source : Stage) (keys : List OptionallyAliasedExpr)
      (aggregations : List AliasedAggregation)
  | sort (source : Stage) (specs : List SortSpecification)
  | limit (source : Stage) (limit : Nat)
  | offset (source : Stage) (offset : Nat)
  | join (join_type : JoinType) (left : Stage) (right : Stage)
      (condition : Option Expression)
  | set (operation : SetOperation) (left : Stage) (right : Stage)

/-- IR expressions (spec §3.3).  `subqueryExpression` carries the
`SubqueryExpr` fields (`output_expr`, `subquery`) directly; the standalone
`SubqueryExpr` record is defined after this block. -/
inductive Expression where
  | literal (l : Literal)
  | reference (k : Key)
  | array (elems : List Expression)
  | document (fields : List (String × Expression))
  | fieldAccess (expr : Expression) (field : String)
  | scalarFunction (function : ScalarFunction) (args : List Expression)
  | cast (expr : Expression) (toType : IrType) (on_null : Expression)
      (on_error : Expression)
  | simpleCase (expr : Expression) (when_branch : List WhenBranch)
      (else_branch : Expression)
  | searchedCase (when_branch : List WhenBranch) (else_branch : Expression)
  | typeAssertion (expr : Expression) (target_type : IrType)
  | isExpr (expr : Expression) (target_type : TypeOrMissing)
  | like (expr : Expression) (pattern : Expression) (escape : Option String)
  | subqueryExpression (output_expr : Expression) (subquery : Stage)
  | subqueryComparison (operator : SubqueryComparisonOp)
      (modifier : SubqueryModifier) (argument : Expression)
      (output_expr : Expression) (subquery : Stage)
  | existsExpr (subquery : Stage)

/-- `ir::WhenBranch` (a `when`/`then` pair of a case expression). -/
inductive WhenBranch where
  | mk (whenExpr : Expression) (thenExpr : Expression)

/-- A group-by key, optionally aliased. -/
inductive OptionallyAliasedExpr where
  | aliased (alias_ : String) (expr : Expression)
  | unaliased (expr : Expression)

/-- An aggregation expression: `COUNT(*)` or a function application. -/
inductive AggregationExpr where
  | countStar (distinct : Bool)
  | function (function : AggregationFunction) (arg : Expression)
      (distinct : Bool)

/-- An aliased aggregation in a `Group` stage. -/
inductive AliasedAggregation where
  | mk (alias_ : String) (agg_expr : AggregationExpr)

/-- A sort specification (ascending/descending; `Dsc` per the source). -/
inductive SortSpecification where
  | asc (expr : Expression)
  | dsc (expr : Expression)

end

/-- `ir::SubqueryExpr` (`output_expr` + `subquery`). -/
structure SubqueryExpr where
  output_expr : Expression
  subquery : Stage

/-! ## IR schema inference

Modelled from the spec (§4.2): `ir/schema.rs` is not under `src/`; only its
tests (`ir/test.rs`) are.  The rules below follow the spec's §4.2 bullet
list, with the behaviour on `SubqueryExpression` pinned by the expected
values of the tests `uncorrelated_subquery_cardinality_is_zero`,
`subquery_expression_cardinality_must_be_one`,
`subquery_cardinality_may_be_1` and `subquery_expression_cardinality_gt_one`
in `src/mongosql/src/ir/test.rs`: the `Missing` branch is added to the
output schema only when the subquery's `min_size` is 0, and the result-set
sizes of `Limit`/`Offset`/`Join` match the expected values of the
`limit_*`/`offset_*`/`*_join` tests.  Constructs whose inference no claim
depends on (scalar functions, casts, cases, `Is`, `Like`, `Group`, `Set`)
are modelled as a distinguished `notModelled` error. -/

/-- Errors of the modelled schema inference (cf. `ir::schema::Error`).
`schemaChecking` carries only the operation name (the real error also
carries the required and found schemas); `notModelled` marks constructs
whose inference is not modelled here. -/
inductive SchemaError where
  | datasourceNotFoundInSchemaEnv (k : Key)
  | accessMissingField (f : String)
  | invalidSubqueryCardinality
  | duplicateKeyError (k : Key)
  | cannotMergeObjects (s1 s2 : Schema) (sat : Satisfaction)
  | schemaChecking (name : String)
  | incorrectArgumentCount (name : String) (required found : Nat)
  | notModelled (what : String)

/-- `ir::schema::ResultSet`: the inferred binding-tuple schemas and
result-set size bounds of a stage. -/
structure ResultSet where
  schema_env : SchemaEnvironment
  min_size : Nat
  max_size : Option Nat

/-- `ir::schema::SchemaInferenceState`. -/
structure SchemaInferenceState where
  env : SchemaEnvironment
  catalog : List ((String × String) × Schema)
  scope_level : Nat

/-- The state used to infer a subquery: same environment, scope + 1. -/
def SchemaInferenceState.subqueryState (st : SchemaInferenceState) :
    SchemaInferenceState :=
  { st with scope_level := st.scope_level + 1 }

/-- Look up a collection schema in the catalog, defaulting to
`ANY_DOCUMENT` (cf. the `limit_collection_datasource` test, whose expected
environment is `ANY_DOCUMENT` for an uncatalogued collection). -/
def catalogLookup (catalog : List ((String × String) × Schema))
    (db coll : String) : Schema :=
  match catalog.find? (fun e => e.1.1 = db ∧ e.1.2 = coll) with
  | some e => e.2
  | none => ANY_DOCUMENT

mutual

/-- Modelled from the spec (§4.1): upconvert `Missing` to `Atomic(Null)`
(applied to array element schemas). -/
def Schema.upconvertMissing : Schema → Schema
  | .missing => .atomic .null
  | .anyOf l => .anyOf (upconvertMissingList l)
  | s => s

/-- Upconvert each schema of a list. -/
def upconvertMissingList : List Schema → List Schema
  | [] => []
  | s :: rest => Schema.upconvertMissing s :: upconvertMissingList rest

end

mutual

/-- The schema of field `f` of a value of schema `s`, assuming containment
has already been established: a document yields the declared key schema
(defaulting to `Any`), an `AnyOf` maps over its branches (pinned by
`subquery_expression_cardinality_must_be_one`, where field access on
`AnyOf([Document{a: Integer}])` yields `AnyOf([Integer])`). -/
def fieldSchemaOf : Schema → String → Schema
  | .document keys _ _, f =>
    match keys.find? (fun kv => kv.1 = f) with
    | some kv => kv.2
    | none => .any
  | .anyOf l, f => .anyOf (fieldSchemaOfList l f)
  | _, _ => .any

/-- Field schemas of each branch of an `AnyOf`. -/
def fieldSchemaOfList : List Schema → String → List Schema
  | [], _ => []
  | s :: rest, f => fieldSchemaOf s f :: fieldSchemaOfList rest f

end

mutual

/-- Modelled from the spec (§4.2): expression schema inference. -/
def inferExprSchema (st : SchemaInferenceState) :
    Expression → Except SchemaError Schema
  | .literal l =>
    .ok (match l with
      | .null => .atomic .null
      | .boolean _ => .atomic .boolean
      | .string _ => .atomic .string
      | .integer _ => .atomic .integer
      | .long _ => .atomic .long
      | .double _ => .atomic .double)
  | .reference k =>
    match st.env.find k with
    | some s => .ok s
    | none => .error (.datasourceNotFoundInSchemaEnv k)
  | .array elems => do
    let schemas ← inferExprSchemaList st elems
    .ok (.array (.anyOf (upconvertMissingList schemas)))
  | .document fields => do
    let keySchemas ← inferDocFieldSchemas st fields
    .ok (.document keySchemas
      ((keySchemas.filter (fun kv => ¬kv.2.isMissingLike)).map Prod.fst)
      false)
  | .fieldAccess e f => do
    let s ← inferExprSchema st e
    if ¬s.mustBeDocument then
      .error (.schemaChecking "FieldAccess")
    else
      match s.containsField f with
      | .must => .ok (fieldSchemaOf s f)
      | .may => .ok (.anyOf [fieldSchemaOf s f, .missing])
      | .not => .error (.accessMissingField f)
  | .subqueryExpression output subquery => do
    let rs ← inferStage st.subqueryState subquery
    let s ← inferExprSchema { st with env := rs.schema_env ++ st.env } output
    match rs.max_size with
    | none => .error .invalidSubqueryCardinality
    | some m =>
      if 1 < m then .error .invalidSubqueryCardinality
      else .ok (if rs.min_size = 0 then .anyOf [s, .missing] else s)
  | .existsExpr subquery => do
    let _ ← inferStage st.subqueryState subquery
    .ok (.atomic .boolean)
  | .scalarFunction _ _ => .error (.notModelled "ScalarFunction")
  | .cast _ _ _ _ => .error (.notModelled "Cast")
  | .simpleCase _ _ _ => .error (.notModelled "SimpleCase")
  | .searchedCase _ _ => .error (.notModelled "SearchedCase")
  | .typeAssertion _ _ => .error (.notModelled "TypeAssertion")
  | .isExpr _ _ => .error (.notModelled "Is")
  | .like _ _ _ => .error (.notModelled "Like")
  | .subqueryComparison _ _ _ _ _ => .error (.notModelled "SubqueryComparison")

/-- Schemas of a list of expressions (first error aborts). -/
def inferExprSchemaList (st : SchemaInferenceState) :
    List Expression → Except SchemaError (List Schema)
  | [] => .ok []
  | e :: rest => do
    let s ← inferExprSchema st e
    let ss ← inferExprSchemaList st rest
    .ok (s :: ss)

/-- Schemas of document fields, preserving key order. -/
def inferDocFieldSchemas (st : SchemaInferenceState) :
    List (String × Expression) → Except SchemaError (List (String × Schema))
  | [] => .ok []
  | kv :: rest => do
    let s ← inferExprSchema st kv.2
    let ss ← inferDocFieldSchemas st rest
    .ok ((kv.1, s) :: ss)

/-- Schemas of the expressions of a `Project` binding tuple, checking that
each binding is a document and rejecting duplicate keys. -/
def inferBindingSchemas (st : SchemaInferenceState) (seen : SchemaEnvironment) :
    List (Key × Expression) → Except SchemaError SchemaEnvironment
  | [] => .ok seen
  | kv :: rest => do
    let s ← inferExprSchema st kv.2
    if ¬s.mustBeDocument then
      .error (.schemaChecking "Project")
    else if SchemaEnvironment.containsKey seen kv.1 then
      .error (.duplicateKeyError kv.1)
    else
      inferBindingSchemas st (seen ++ [(kv.1, s)]) rest

/-- Check the expressions of a list of sort specifications. -/
def inferSortSpecs (st : SchemaInferenceState) :
    List SortSpecification → Except SchemaError Unit
  | [] => .ok ()
  | .asc e :: rest => do
    let _ ← inferExprSchema st e
    inferSortSpecs st rest
  | .dsc e :: rest => do
    let _ ← inferExprSchema st e
    inferSortSpecs st rest

/-- Modelled from the spec (§4.2): stage schema inference, computing the
binding-tuple schema environment and the result-set size bounds. -/
def inferStage (st : SchemaInferenceState) :
    Stage → Except SchemaError ResultSet
  | .collection db coll =>
    .ok { schema_env := [(⟨.named coll, st.scope_level⟩,
            catalogLookup st.catalog db coll)],
          min_size := 0, max_size := none }
  | .array elems alias_ => do
    let schemas ← inferArrayElemSchemas st elems
    .ok { schema_env := [(⟨.named alias_, st.scope_level⟩, .anyOf schemas)],
          min_size := elems.length, max_size := some elems.length }
  | .project source expression => do
    let rs ← inferStage st source
    let env ← inferBindingSchemas { st with env := rs.schema_env ++ st.env }
      [] expression
    .ok { schema_env := env, min_size := rs.min_size,
          max_size := rs.max_size }
  | .filter source condition => do
    let rs ← inferStage st source
    let s ← inferExprSchema { st with env := rs.schema_env ++ st.env }
      condition
    if ¬s.mayBeBooleanOrNullish then
      .error (.schemaChecking "Filter")
    else
      .ok { schema_env := rs.schema_env, min_size := 0,
            max_size := rs.max_size }
  | .sort source specs => do
    let rs ← inferStage st source
    let _ ← inferSortSpecs { st with env := rs.schema_env ++ st.env } specs
    .ok rs
  | .limit source n => do
    let rs ← inferStage st source
    .ok { schema_env := rs.schema_env,
          min_size := min rs.min_size n,
          max_size := some (match rs.max_size with
            | some m => min m n
            | none => n) }
  | .offset source n => do
    let rs ← inferStage st source
    .ok { schema_env := rs.schema_env,
          min_size := rs.min_size - n,
          max_size := rs.max_size.map (· - n) }
  | .join join_type left right condition => do
    let lrs ← inferStage st left
    let rrs ← inferStage st right
    let rightEnv := match join_type with
      | .left => rrs.schema_env.map (fun kv => (kv.1, Schema.anyOf [.missing, kv.2]))
      | .inner => rrs.schema_env
    let env ← (SchemaEnvironment.merge lrs.schema_env rightEnv).mapError
      SchemaError.duplicateKeyError
    match condition with
    | some c => do
      let s ← inferExprSchema { st with env := env ++ st.env } c
      if ¬s.mayBeBooleanOrNullish then
        .error (.schemaChecking "Join")
      else
        .ok { schema_env := env,
              min_size := (match join_type with
                | .inner => 0
                | .left => lrs.min_size * rrs.min_size),
              max_size := (match lrs.max_size, rrs.max_size with
                | some a, some b => some (a * b)
                | _, _ => none) }
    | none =>
      .ok { schema_env := env,
            min_size := lrs.min_size * rrs.min_size,
            max_size := (match lrs.max_size, rrs.max_size with
              | some a, some b => some (a * b)
              | _, _ => none) }
  | .group _ _ _ => .error (.notModelled "Group")
  | .set _ _ _ => .error (.notModelled "Set")

/-- Schemas of the elements of an `Array` datasource, checking that each
element is a document (spec §3.3: "all elements must schema-check as
documents"). -/
def inferArrayElemSchemas (st : SchemaInferenceState) :
    List Expression → Except SchemaError (List Schema)
  | [] => .ok []
  | e :: rest => do
    let s ← inferExprSchema st e
    if ¬s.mustBeDocument then
      .error (.schemaChecking "Array")
    else do
      let ss ← inferArrayElemSchemas st rest
      .ok (s :: ss)

end

/-- Schema inference for an `ir::SubqueryExpr` record. -/
def inferSubqueryExpr (st : SchemaInferenceState) (se : SubqueryExpr) :
    Except SchemaError Schema :=
  inferExprSchema st (.subqueryExpression se.output_expr se.subquery)

/-- Modelled from the spec: the schema check applied to an aggregation
expression by `schema_check_return!` — the argument is schema-checked and
errors propagate; the resulting schema is discarded by the macro. -/
def inferAggregationExpr (st : SchemaInferenceState) :
    AggregationExpr → Except SchemaError Unit
  | .countStar _ => .ok ()
  | .function _ arg _ => do
    let _ ← inferExprSchema st arg
    .ok ()

end Ir

/-- `schema.get_single_field_name()`: the single field name of a degree-1
schema.  Modelled from the spec (§4.3: the subquery's single datasource must
have a "single-field schema"); the `crate::schema` implementation is not
under `src/`. -/
def Schema.getSingleFieldName : Schema → Option String
  | .document keys _ _ =>
    match keys with
    | [kv] => some kv.1
    | _ => none
  | .anyOf schemas =>
    match schemas with
    | [s] => Schema.getSingleFieldName s
    | _ => none
  | _ => none

/-! ## AST data model (`ast/definitions.rs`)

Embedded from `src/mongosql/src/ast/definitions.rs`, adapted where the
algebrizer (a later revision of the crate) requires it; each adaptation is
noted:
- `Expression` gains the `trim`/`extract` variants and `FunctionExpr` uses
  a `FunctionName` enum and `FunctionArguments` (`Star | Args`), as matched
  by `algebrizer/definitions.rs`;
- `GroupByClause.keys` are `OptionallyAliasedExpr`s and aggregation aliases
  are mandatory, as consumed by `algebrize_group_by_clause`;
- the struct types (`SelectQuery`, `JoinSource`, …) are flattened into
  constructor fields of the mutual inductive. -/

namespace Ast

/-- `ast::SetOperator`. -/
inductive SetOperator where
  | union | unionAll
deriving DecidableEq, Repr

/-- `ast::SetQuantifier`. -/
inductive SetQuantifier where
  | all | distinct
deriving DecidableEq, Repr

/-- `ast::JoinType`. -/
inductive JoinType where
  | left | right | cross | inner
deriving DecidableEq, Repr

/-- `ast::BinaryOp`. -/
inductive BinaryOp where
  | add | and | concat | div | eq | gt | gte | inOp | lt | lte | mul | neq
  | notIn | or | sub
deriving DecidableEq, Repr

/-- `ast::BinaryOp::as_str` (used in error payloads). -/
def BinaryOp.asString : BinaryOp → String
  | .add => "+" | .and => "AND" | .concat => "||" | .div => "/" | .eq => "="
  | .gt => ">" | .gte => ">=" | .inOp => "IN" | .lt => "<" | .lte => "<="
  | .mul => "*" | .neq => "<>" | .notIn => "NOT IN" | .or => "OR" | .sub => "-"

/-- `ast::UnaryOp`. -/
inductive UnaryOp where
  | pos | neg | notOp
deriving DecidableEq, Repr

/-- `ast::FunctionName` (the enum form matched by the algebrizer). -/
inductive FunctionName where
  | bitLength | charLength | coalesce | currentTimestamp | lower | nullIf
  | octetLength | position | size | slice | substring | upper
  | addToArray | addToSet | avg | count | first | last | max
  | mergeDocuments | min | stddevPop | stddevSamp | sum
deriving DecidableEq, Repr

/-- `FunctionName::to_string` (used in error payloads). -/
def FunctionName.asString : FunctionName → String
  | .bitLength => "BitLength" | .charLength => "CharLength"
  | .coalesce => "Coalesce" | .currentTimestamp => "CurrentTimestamp"
  | .lower => "Lower" | .nullIf => "NullIf" | .octetLength => "OctetLength"
  | .position => "Position" | .size => "Size" | .slice => "Slice"
  | .substring => "Substring" | .upper => "Upper"
  | .addToArray => "AddToArray" | .addToSet => "AddToSet" | .avg => "Avg"
  | .count => "Count" | .first => "First" | .last => "Last" | .max => "Max"
  | .mergeDocuments => "MergeDocuments" | .min => "Min"
  | .stddevPop => "StddevPop" | .stddevSamp => "StddevSamp" | .sum => "Sum"

/-- `ast::TrimSpec`. -/
inductive TrimSpec where
  | leading | trailing | both
deriving DecidableEq, Repr

/-- `ast::ExtractSpec` (the six variants handled by `algebrize_extract`). -/
inductive ExtractSpec where
  | year | month | day | hour | minute | second
deriving DecidableEq, Repr

/-- `ast::SubqueryQuantifier`. -/
inductive SubqueryQuantifier where
  | all | any
deriving DecidableEq, Repr

/-- `ast::SortDirection`. -/
inductive SortDirection where
  | asc | desc
deriving DecidableEq, Repr

/-- `ast::Literal` (`Double` payload carried opaquely). -/
inductive Literal where
  | null
  | boolean (b : Bool)
  | string (s : String)
  | integer (i : Int)
  | long (l : Int)
  | double (bits : Int)
deriving DecidableEq, Repr

set_option maxHeartbeats 2000000 in
mutual

/-- `ast::Query`. -/
inductive Query where
  | select (q : SelectQuery)
  | set (q : SetQuery)

/-- `ast::SelectQuery` (fields in declaration order). -/
inductive SelectQuery where
  | mk (select_clause : SelectClause) (from_clause : Option Datasource)
      (where_clause : Option Expression)
      (group_by_clause : Option GroupByClause)
      (having_clause : Option Expression)
      (order_by_clause : Option OrderByClause)
      (limit : Option Nat) (offset : Option Nat)

/-- `ast::SetQuery`. -/
inductive SetQuery where
  | mk (left : Query) (op : SetOperator) (right : Query)

/-- `ast::SelectClause`. -/
inductive SelectClause where
  | mk (set_quantifier : SetQuantifier) (body : SelectBody)

/-- `ast::SelectBody`. -/
inductive SelectBody where
  | standard (exprs : List SelectExpression)
  | values (exprs : List SelectValuesExpression)

/-- `ast::SelectExpression`. -/
inductive SelectExpression where
  | star
  | substar (datasource : String)
  | aliased (expr : Expression) (alias_ : Option String)

/-- `ast::SelectValuesExpression`. -/
inductive SelectValuesExpression where
  | expression (e : Expression)
  | substar (datasource : String)

/-- `ast::Datasource` (source structs flattened into constructor fields). -/
inductive Datasource where
  | array (array : List Expression) (alias_ : String)
  | collection (database : Option String) (collection : String)
      (alias_ : Option String)
  | derived (query : Query) (alias_ : String)
  | join (join_type : JoinType) (left : Datasource) (right : Datasource)
      (condition : Option Expression)

/-- `ast::Expression`. -/
inductive Expression where
  | binary (left : Expression) (op : BinaryOp) (right : Expression)
  | unary (op : UnaryOp) (expr : Expression)
  | between (expr : Expression) (low : Expression) (high : Expression)
  | caseExpr (expr : Option Expression) (when_branch : List WhenBranch)
      (else_branch : Option Expression)
  | function (function : FunctionName) (args : FunctionArguments)
      (set_quantifier : Option SetQuantifier)
  | castExpr (expr : Expression) (target : Ir.IrType)
      (on_null : Option Expression) (on_error : Option Expression)
  | array (elems : List Expression)
  | subquery (q : Query)
  | existsExpr (q : Query)
  | subqueryComparison (expr : Expression) (op : BinaryOp)
      (quantifier : SubqueryQuantifier) (subquery : Query)
  | document (fields : List (String × Expression))
  | access (expr : Expression) (subfield : Expression)
  | subpath (expr : Expression) (subpath : String)
  | identifier (s : String)
  | isExpr (expr : Expression) (target_type : Ir.TypeOrMissing)
  | like (expr : Expression) (pattern : Expression) (escape : Option String)
  | literal (l : Literal)
  | tuple (elems : List Expression)
  | typeAssertion (expr : Expression) (target_type : Ir.IrType)
  | trim (trim_spec : TrimSpec) (trim_chars : Expression) (arg : Expression)
  | extract (extract_spec : ExtractSpec) (arg : Expression)

/-- `ast::WhenBranch`. -/
inductive WhenBranch where
  | mk (whenExpr : Expression) (thenExpr : Expression)

/-- `ast::FunctionArguments`. -/
inductive FunctionArguments where
  | star
  | args (ve : List Expression)

/-- `ast::GroupByClause`. -/
inductive GroupByClause where
  | mk (keys : List OptionallyAliasedExpr)
      (aggregations : List AliasedExpr)

/-- `ast::OptionallyAliasedExpr`. -/
inductive OptionallyAliasedExpr where
  | aliased (alias_ : String) (expr : Expression)
  | unaliased (expr : Expression)

/-- `ast::AliasedExpr` (with mandatory alias, as consumed by
`algebrize_group_by_clause`). -/
inductive AliasedExpr where
  | mk (alias_ : String) (expr : Expression)

/-- `ast::OrderByClause`. -/
inductive OrderByClause where
  | mk (sort_specs : List SortSpec)

/-- `ast::SortSpec`. -/
inductive SortSpec where
  | mk (key : SortKey) (direction : SortDirection)

/-- `ast::SortKey`. -/
inductive SortKey where
  | simple (e : Expression)
  | positional (n : Nat)

end

mutual

/-- `ast::visitors::are_literal`: whether every expression of a list is
recursively constant.  Modelled from the spec (§4.3: "all exprs must be
literal (recursively constant)"); the visitor implementation is not under
`src/`.  Literals, and arrays/documents of recursively-constant
expressions, are constant. -/
def Expression.isPureLiteral : Expression → Bool
  | .literal _ => true
  | .array elems => allPureLiteral elems
  | .document fields => allPureLiteralValues fields
  | _ => false

/-- All expressions of a list are recursively constant. -/
def allPureLiteral : List Expression → Bool
  | [] => true
  | e :: rest => e.isPureLiteral && allPureLiteral rest

/-- All values of a keyed list are recursively constant. -/
def allPureLiteralValues : List (String × Expression) → Bool
  | [] => true
  | kv :: rest => kv.2.isPureLiteral && allPureLiteralValues rest

end

end Ast

/-! ## Algebrizer (`algebrizer/definitions.rs`)

Embedded from `src/mongosql/src/algebrizer/definitions.rs`.  Calls to
`stage.schema(state)` / `expr.schema(state)` go to the spec-modelled
inference above (`ir/schema.rs` is not under `src/`); schema errors are
wrapped by `Error::SchemaChecking` as in the source. -/

namespace Alg

/-- `algebrizer::Error` (payload types simplified where the real payloads
are display strings). -/
inductive Error where
  | addToSetDoesNotExistInIr
  | noFromClause
  | nonStarStandardSelectBody
  | collectionMustHaveAlias
  | arrayDatasourceMustBeLiteral
  | distinctSelect
  | distinctUnion
  | noSuchDatasource (ds : DatasourceName)
  | fieldNotFound (f : String)
  | ambiguousField (f : String)
  | starInNonCount
  | aggregationInPlaceOfScalar (name : String)
  | scalarInPlaceOfAggregation (name : String)
  | nonAggregationInPlaceOfAggregation (pos : Nat)
  | aggregationFunctionMustHaveOneArgument
  | distinctScalarFunction
  | derivedDatasouceOverlappingKeys (s1 s2 : Schema) (sat : Satisfaction)
  | cannotBeAlgebrized (what : String)
  | schemaChecking (e : Ir.SchemaError)
  | noOuterJoinCondition
  | duplicateKey (k : Key)
  | positionalSortKey
  | invalidSubqueryDegree
  | invalidSubqueryComparisonOp (op : String)
  | duplicateDocumentKey (k : String)
  | unreachableReached

/-- `TryFrom<ast::BinaryOp> for ir::ScalarFunction`. -/
def binaryOpToScalarFunction : Ast.BinaryOp → Except Error Ir.ScalarFunction
  | .add => .ok .add
  | .and => .ok .and
  | .concat => .ok .concat
  | .div => .ok .div
  | .eq => .ok .eq
  | .gt => .ok .gt
  | .gte => .ok .gte
  | .lt => .ok .lt
  | .lte => .ok .lte
  | .mul => .ok .mul
  | .neq => .ok .neq
  | .or => .ok .or
  | .sub => .ok .sub
  | .inOp => .error (.cannotBeAlgebrized (Ast.BinaryOp.asString .inOp))
  | .notIn => .error (.cannotBeAlgebrized (Ast.BinaryOp.asString .notIn))

/-- `TryFrom<ast::FunctionName> for ir::ScalarFunction`. -/
def functionNameToScalarFunction :
    Ast.FunctionName → Except Error Ir.ScalarFunction
  | .bitLength => .ok .bitLength
  | .charLength => .ok .charLength
  | .coalesce => .ok .coalesce
  | .currentTimestamp => .ok .currentTimestamp
  | .lower => .ok .lower
  | .nullIf => .ok .nullIf
  | .octetLength => .ok .octetLength
  | .position => .ok .position
  | .size => .ok .size
  | .slice => .ok .slice
  | .substring => .ok .substring
  | .upper => .ok .upper
  | f => .error (.aggregationInPlaceOfScalar f.asString)

/-- `TryFrom<ast::FunctionName> for ir::AggregationFunction`. -/
def functionNameToAggregationFunction :
    Ast.FunctionName → Except Error Ir.AggregationFunction
  | .addToArray => .ok .addToArray
  | .addToSet => .error .addToSetDoesNotExistInIr
  | .avg => .ok .avg
  | .count => .ok .count
  | .first => .ok .first
  | .last => .ok .last
  | .max => .ok .max
  | .mergeDocuments => .ok .mergeDocuments
  | .min => .ok .min
  | .stddevPop => .ok .stddevPop
  | .stddevSamp => .ok .stddevSamp
  | .sum => .ok .sum
  | f => .error (.scalarInPlaceOfAggregation f.asString)

/-- `TryFrom<ast::BinaryOp> for ir::SubqueryComparisonOp`. -/
def binaryOpToSubqueryComparisonOp :
    Ast.BinaryOp → Except Error Ir.SubqueryComparisonOp
  | .eq => .ok .eq
  | .gt => .ok .gt
  | .gte => .ok .gte
  | .lt => .ok .lt
  | .lte => .ok .lte
  | .neq => .ok .neq
  | op => .error (.invalidSubqueryComparisonOp op.asString)

/-- `From<ast::UnaryOp> for ir::ScalarFunction`. -/
def unaryOpToScalarFunction : Ast.UnaryOp → Ir.ScalarFunction
  | .pos => .pos
  | .neg => .neg
  | .notOp => .notFn

/-- The `Algebrizer` state (`current_db`, `schema_env`, `catalog`,
`scope_level`). -/
structure Algebrizer where
  current_db : String
  schema_env : SchemaEnvironment
  catalog : List ((String × String) × Schema)
  scope_level : Nat

/-- `Algebrizer::schema_inference_state`. -/
def Algebrizer.schemaInferenceState (a : Algebrizer) :
    Ir.SchemaInferenceState :=
  { env := a.schema_env, catalog := a.catalog, scope_level := a.scope_level }

/-- `Algebrizer::subquery_algebrizer`: same state with `scope_level + 1`. -/
def Algebrizer.subqueryAlgebrizer (a : Algebrizer) : Algebrizer :=
  { a with scope_level := a.scope_level + 1 }

/-- `Algebrizer::with_merged_mappings`: merge a schema environment into the
algebrizer's, failing with `DuplicateKey` on collision. -/
def Algebrizer.withMergedMappings (a : Algebrizer)
    (mappings : SchemaEnvironment) : Except Error Algebrizer :=
  match SchemaEnvironment.merge a.schema_env mappings with
  | .ok env => .ok { a with schema_env := env }
  | .error k => .error (.duplicateKey k)

/-- `algebrize_literal`. -/
def algebrizeLiteral : Ast.Literal → Ir.Literal
  | .null => .null
  | .boolean b => .boolean b
  | .string s => .string s
  | .integer i => .integer i
  | .long l => .long l
  | .double d => .double d

/-- The fold state of `algebrize_unqualified_identifier_by_scope`: the last
`Must` datasource found (initially `Key::bot(scope)`), and the `May` and
`Must` counts. -/
def scopeFoldStep (i : String) (scope : Nat)
    (acc : Key × Nat × Nat) (kv : Key × Schema) : Key × Nat × Nat :=
  if kv.1.scope = scope then
    match kv.2.containsField i with
    | .must => (kv.1, acc.2.1, acc.2.2 + 1)
    | .may => (acc.1, acc.2.1 + 1, acc.2.2)
    | .not => acc
  else acc

/-- `algebrize_unqualified_identifier_by_scope`: loop from the given scope
outward (toward scope 0); in each scope count the `Must` and `May`
datasources for the field; more than one `Must` or any `May` is ambiguous;
exactly one `Must` resolves; otherwise move to the enclosing scope.  The
`unreachable!()` hit when scope 0 has no candidate is modelled as the
distinguished error `unreachableReached`.  `scopeDecision` is one
iteration of the loop body: `some` is an early return, `none` falls
through to the enclosing scope. -/
def scopeDecision (a : Algebrizer) (i : String) (scope : Nat) :
    Option (Except Error Ir.Expression) :=
  let current_bot := Key.bot scope
  let folded := a.schema_env.foldl (scopeFoldStep i scope) (current_bot, 0, 0)
  if folded.2.2 > 1 ∨ folded.2.1 > 0 then
    some (.error (.ambiguousField i))
  else if folded.2.2 = 1 then
    some (.ok (.fieldAccess (.reference folded.1) i))
  else
    none

def algebrizeUnqualifiedIdentifierByScope (a : Algebrizer) (i : String) :
    Nat → Except Error Ir.Expression
  | 0 => (scopeDecision a i 0).getD (.error .unreachableReached)
  | n + 1 =>
    (scopeDecision a i (n + 1)).getD
      (algebrizeUnqualifiedIdentifierByScope a i n)

/-- `algebrize_unqualified_identifier`: collect the datasources (over all
scopes) whose schema contains the field with satisfaction `May` or `Must`;
none is `FieldNotFound`, exactly one resolves to it, and more than one
falls back to the scope-by-scope search. -/
def algebrizeUnqualifiedIdentifier (a : Algebrizer) (i : String) :
    Except Error Ir.Expression :=
  let i_containing_datasources := a.schema_env.filter fun kv =>
    let sat := kv.2.containsField i
    sat = .may ∨ sat = .must
  match i_containing_datasources with
  | [] => .error (.fieldNotFound i)
  | [kv] => .ok (.fieldAccess (.reference kv.1) i)
  | _ => algebrizeUnqualifiedIdentifierByScope a i a.scope_level

/-- `algebrize_possibly_qualified_field_access`: if `q` is a datasource in
scope, emit `FieldAccess(Reference(q at nearest scope), field)`; otherwise
resolve `q` as an unqualified identifier and access `field` on it. -/
def algebrizePossiblyQualifiedFieldAccess (a : Algebrizer) (q field : String) :
    Except Error Ir.Expression :=
  let possible_datasource := DatasourceName.named q
  match SchemaEnvironment.nearestScopeForDatasource a.schema_env
      possible_datasource a.scope_level with
  | some scope =>
    .ok (.fieldAccess (.reference ⟨possible_datasource, scope⟩) field)
  | none => do
    let e ← algebrizeUnqualifiedIdentifier a q
    .ok (.fieldAccess e field)

/-- `schema_check_return!` on an IR expression: infer its schema (wrapping
errors in `SchemaChecking`) and return the expression. -/
def Algebrizer.checkExpr (a : Algebrizer) (e : Ir.Expression) :
    Except Error Ir.Expression :=
  match Ir.inferExprSchema a.schemaInferenceState e with
  | .ok _ => .ok e
  | .error err => .error (.schemaChecking err)

/-- `stage.schema(...)?` on an IR stage, wrapping errors. -/
def Algebrizer.checkStage (a : Algebrizer) (s : Ir.Stage) :
    Except Error Ir.ResultSet :=
  (Ir.inferStage a.schemaInferenceState s).mapError Error.schemaChecking

/-- `schema_check_return!` on an aggregation expression. -/
def Algebrizer.checkAgg (a : Algebrizer) (g : Ir.AggregationExpr) :
    Except Error Ir.AggregationExpr :=
  match Ir.inferAggregationExpr a.schemaInferenceState g with
  | .ok _ => .ok g
  | .error err => .error (.schemaChecking err)

/-- `UniqueLinkedHashMap::insert_many`: the first key that repeats an
earlier one, if any. -/
def firstDuplicateKey (seen : List String) : List String → Option String
  | [] => none
  | k :: rest =>
    if seen.contains k then some k
    else firstDuplicateKey (seen ++ [k]) rest

/-- `algebrize_limit_clause`. -/
def algebrizeLimitClause (a : Algebrizer) (ast_node : Option Nat)
    (source : Ir.Stage) : Except Error Ir.Stage :=
  match ast_node with
  | none => .ok source
  | some x => do
    let stage := Ir.Stage.limit source x
    let _ ← a.checkStage stage
    .ok stage

/-- `algebrize_offset_clause`. -/
def algebrizeOffsetClause (a : Algebrizer) (ast_node : Option Nat)
    (source : Ir.Stage) : Except Error Ir.Stage :=
  match ast_node with
  | none => .ok source
  | some x => do
    let stage := Ir.Stage.offset source x
    let _ ← a.checkStage stage
    .ok stage

/-- The degree-1 check and `SubqueryExpr` construction of
`algebrize_subquery_expr`, applied to the already-algebrized subquery
stage under the child algebrizer. -/
def subqueryExprFromStage (subquery_algebrizer : Algebrizer)
    (subquery : Ir.Stage) : Except Error Ir.SubqueryExpr := do
  let result_set ← subquery_algebrizer.checkStage subquery
  match result_set.schema_env with
  | [kv] =>
    match kv.2.getSingleFieldName with
    | some field =>
      .ok { output_expr := .fieldAccess (.reference kv.1) field,
            subquery := subquery }
    | none => .error .invalidSubqueryDegree
  | _ => .error .invalidSubqueryDegree

mutual

/-- `algebrize_query`. -/
def algebrizeQuery (a : Algebrizer) : Ast.Query → Except Error Ir.Stage
  | .select q => algebrizeSelectQuery a q
  | .set q => algebrizeSetQuery a q

/-- `algebrize_set_query`. -/
def algebrizeSetQuery (a : Algebrizer) : Ast.SetQuery → Except Error Ir.Stage
  | .mk left op right =>
    match op with
    | .union => .error .distinctUnion
    | .unionAll => do
      let l ← algebrizeQuery a left
      let r ← algebrizeQuery a right
      let stage := Ir.Stage.set .unionAll l r
      let _ ← a.checkStage stage
      .ok stage

/-- `algebrize_select_query`: the clauses are algebrized in the fixed order
FROM, WHERE, GROUP BY, HAVING, SELECT, ORDER BY, OFFSET, LIMIT, each step
receiving the previous step's stage; `?` propagates the first error. -/
def algebrizeSelectQuery (a : Algebrizer) :
    Ast.SelectQuery → Except Error Ir.Stage
  | .mk select_clause from_clause where_clause group_by_clause having_clause
      order_by_clause limit offset => do
    let plan ← algebrizeFromClause a from_clause
    let plan ← algebrizeFilterClause a where_clause plan
    let plan ← algebrizeGroupByClause a group_by_clause plan
    let plan ← algebrizeFilterClause a having_clause plan
    let plan ← algebrizeSelectClause a select_clause plan
    let plan ← algebrizeOrderByClause a order_by_clause plan
    let plan ← algebrizeOffsetClause a offset plan
    let plan ← algebrizeLimitClause a limit plan
    .ok plan

/-- `algebrize_from_clause`. -/
def algebrizeFromClause (a : Algebrizer) :
    Option Ast.Datasource → Except Error Ir.Stage
  | none => .error .noFromClause
  | some ds => algebrizeDatasource a ds

/-- `algebrize_datasource`. -/
def algebrizeDatasource (a : Algebrizer) :
    Ast.Datasource → Except Error Ir.Stage
  | .array ve alias_ =>
    -- `are_literal` returns the expressions unchanged plus a flag.
    if ¬Ast.allPureLiteral ve then
      .error .arrayDatasourceMustBeLiteral
    else do
      let elems ← algebrizeExprList a ve
      let stage := Ir.Stage.array elems alias_
      let _ ← a.checkStage stage
      .ok stage
  | .collection database collection alias_ =>
    let src := Ir.Stage.collection (database.getD a.current_db) collection
    match alias_ with
    | some al => do
      let stage := Ir.Stage.project src
        [(⟨.named al, a.scope_level⟩,
          Ir.Expression.reference ⟨.named collection, a.scope_level⟩)]
      let _ ← a.checkStage stage
      .ok stage
    | none => .error .collectionMustHaveAlias
  | .join join_type left right condition => do
    let left_src ← algebrizeDatasource a left
    let right_src ← algebrizeDatasource a right
    let left_rs ← a.checkStage left_src
    let right_rs ← a.checkStage right_src
    let ja ← a.withMergedMappings left_rs.schema_env
    let join_algebrizer ← ja.withMergedMappings right_rs.schema_env
    let condition ← algebrizeOptionalExpr join_algebrizer condition
    -- the source also computes `condition.map(|e| e.schema(...))` here and
    -- discards the result
    match join_type with
    | .left =>
      if condition.isNone then .error .noOuterJoinCondition
      else .ok (.join .left left_src right_src condition)
    | .right =>
      if condition.isNone then .error .noOuterJoinCondition
      else .ok (.join .left right_src left_src condition)
    | .cross => .ok (.join .inner left_src right_src condition)
    | .inner => .ok (.join .inner left_src right_src condition)
  | .derived query alias_ => do
    let derived_algebrizer : Algebrizer :=
      ⟨a.current_db, [], a.catalog, a.scope_level + 1⟩
    let src ← algebrizeQuery derived_algebrizer query
    let src_rs ← derived_algebrizer.checkStage src
    let expression := [((⟨.named alias_, a.scope_level⟩ : Key),
      Ir.Expression.scalarFunction .mergeObjects
        (src_rs.schema_env.map (fun kv => Ir.Expression.reference kv.1)))]
    let stage := Ir.Stage.project src expression
    match Ir.inferStage derived_algebrizer.schemaInferenceState stage with
    | .error (.cannotMergeObjects s1 s2 sat) =>
      .error (.derivedDatasouceOverlappingKeys s1 s2 sat)
    | .error e => .error (.schemaChecking e)
    | .ok _ => .ok stage

/-- `j.condition.map(|e| algebrize_expression(e)).transpose()` (also used
for the optional operand of a simple case). -/
def algebrizeOptionalExpr (a : Algebrizer) :
    Option Ast.Expression → Except Error (Option Ir.Expression)
  | none => .ok none
  | some e => do
    let e' ← algebrizeExpression a e
    .ok (some e')

/-- `opt.map(algebrize_expression).transpose()?.unwrap_or(Literal(Null))`:
the defaulting pattern of `algebrize_case` / `algebrize_cast` (the default
is inlined, as algebrizing `Literal(Null)` cannot fail). -/
def algebrizeOptionalWithNullDefault (a : Algebrizer) :
    Option Ast.Expression → Except Error Ir.Expression
  | none => .ok (.literal .null)
  | some e => algebrizeExpression a e

/-- `algebrize_filter_clause` (used for both WHERE and HAVING). -/
def algebrizeFilterClause (a : Algebrizer) (ast_node : Option Ast.Expression)
    (source : Ir.Stage) : Except Error Ir.Stage := do
  let filtered ← match ast_node with
    | none => pure source
    | some expr => do
      let src_rs ← a.checkStage source
      let ea ← a.withMergedMappings src_rs.schema_env
      let cond ← algebrizeExpression ea expr
      pure (Ir.Stage.filter source cond)
  let _ ← a.checkStage filtered
  .ok filtered

/-- `algebrize_select_clause`. -/
def algebrizeSelectClause (a : Algebrizer) (ast_node : Ast.SelectClause)
    (source : Ir.Stage) : Except Error Ir.Stage :=
  match ast_node with
  | .mk set_quantifier body =>
    match set_quantifier with
    | .distinct => .error .distinctSelect
    | .all =>
      match body with
      | .standard exprs =>
        match exprs with
        | [.star] => do
          let _ ← a.checkStage source
          .ok source
        | _ => .error .nonStarStandardSelectBody
      -- `algebrize_select_values_body` is inlined here (for structural
      -- recursion); a standalone wrapper with the source's name is
      -- defined after this block.
      | .values exprs => do
        let src_rs ← a.checkStage source
        let ea ← a.withMergedMappings src_rs.schema_env
        let expression ← algebrizeSelectValuesList ea [] exprs
        let stage := Ir.Stage.project source expression
        let _ ← a.checkStage stage
        .ok stage

/-- The fold of `algebrize_select_values_body` over the `SELECT VALUES`
expressions, carrying the set of datasource keys seen so far. -/
def algebrizeSelectValuesList (ea : Algebrizer) (datasources : List Key) :
    List Ast.SelectValuesExpression →
    Except Error (List (Key × Ir.Expression))
  | [] => .ok []
  | .expression e :: rest => do
    let e' ← algebrizeExpression ea e
    let bot := Key.bot ea.scope_level
    if datasources.contains bot then .error (.duplicateKey bot)
    else do
      let tail ← algebrizeSelectValuesList ea (bot :: datasources) rest
      .ok ((bot, e') :: tail)
  | .substar s :: rest => do
    let datasource := DatasourceName.named s
    let key : Key := ⟨datasource, ea.scope_level⟩
    if datasources.contains key then .error (.duplicateKey key)
    else
      match SchemaEnvironment.nearestScopeForDatasource ea.schema_env
          datasource ea.scope_level with
      | none => .error (.noSuchDatasource datasource)
      | some scope => do
        let tail ← algebrizeSelectValuesList ea (key :: datasources) rest
        .ok ((key, Ir.Expression.reference ⟨datasource, scope⟩) :: tail)

/-- `algebrize_group_by_clause`. -/
def algebrizeGroupByClause (a : Algebrizer)
    (ast_node : Option Ast.GroupByClause) (source : Ir.Stage) :
    Except Error Ir.Stage := do
  let grouped ← match ast_node with
    | none => pure source
    | some g =>
      match g with
      | .mk keys aggregations => do
      let src_rs ← a.checkStage source
      let ea ← a.withMergedMappings src_rs.schema_env
        let keysResult ← algebrizeGroupKeys ea [] keys
        let aggs ← algebrizeGroupAggs ea keysResult.1 0 aggregations
        pure (Ir.Stage.group source keysResult.2 aggs)
  let _ ← a.checkStage grouped
  .ok grouped

/-- The fold over GROUP BY keys, carrying the `group_clause_aliases` seen
so far (duplicates are `DuplicateDocumentKey`). -/
def algebrizeGroupKeys (ea : Algebrizer) (aliases : List String) :
    List Ast.OptionallyAliasedExpr →
    Except Error (List String × List Ir.OptionallyAliasedExpr)
  | [] => .ok (aliases, [])
  | .aliased al e :: rest =>
    if aliases.contains al then .error (.duplicateDocumentKey al)
    else do
      let e' ← algebrizeExpression ea e
      let tail ← algebrizeGroupKeys ea (aliases ++ [al]) rest
      .ok (tail.1, .aliased al e' :: tail.2)
  | .unaliased e :: rest => do
    let e' ← algebrizeExpression ea e
    let tail ← algebrizeGroupKeys ea aliases rest
    .ok (tail.1, .unaliased e' :: tail.2)

/-- The fold over GROUP BY aggregations (continuing the alias set and the
position index). -/
def algebrizeGroupAggs (ea : Algebrizer) (aliases : List String)
    (index : Nat) : List Ast.AliasedExpr →
    Except Error (List Ir.AliasedAggregation)
  | [] => .ok []
  | .mk al e :: rest =>
    if aliases.contains al then .error (.duplicateDocumentKey al)
    else do
      let agg ← match e with
        | .function f args sq => algebrizeAggregation ea f args sq
        | _ => .error (.nonAggregationInPlaceOfAggregation index)
      let tail ← algebrizeGroupAggs ea (aliases ++ [al]) (index + 1) rest
      .ok (.mk al agg :: tail)

/-- `algebrize_aggregation` (the `ast::FunctionExpr` fields are passed
positionally).  `ADDTOSET` is rewritten to a distinct `ADDTOARRAY`. -/
def algebrizeAggregation (a : Algebrizer) (function : Ast.FunctionName)
    (args : Ast.FunctionArguments)
    (set_quantifier : Option Ast.SetQuantifier) :
    Except Error Ir.AggregationExpr :=
  let dq : Bool × Ast.FunctionName :=
    if function = .addToSet then (true, .addToArray)
    else (set_quantifier = some .distinct, function)
  match args with
  | .star =>
    if function = .count then a.checkAgg (.countStar dq.1)
    else .error .starInNonCount
  | .args ve => do
    let irf ← functionNameToAggregationFunction dq.2
    match ve with
    | [e] => do
      let arg ← algebrizeExpression a e
      a.checkAgg (.function irf arg dq.1)
    | _ => .error .aggregationFunctionMustHaveOneArgument

/-- `algebrize_order_by_clause`.  Note that the source computes the merged
expression algebrizer (and hence schema-checks the source) before matching
on the optional clause. -/
def algebrizeOrderByClause (a : Algebrizer)
    (ast_node : Option Ast.OrderByClause) (source : Ir.Stage) :
    Except Error Ir.Stage := do
  let src_rs ← a.checkStage source
  let ea ← a.withMergedMappings src_rs.schema_env
  let ordered ← match ast_node with
    | none => pure source
    | some o =>
      match o with
      | .mk sort_specs => do
        let specs ← algebrizeSortSpecs ea sort_specs
        pure (Ir.Stage.sort source specs)
  let _ ← a.checkStage ordered
  .ok ordered

/-- The fold over ORDER BY sort specifications. -/
def algebrizeSortSpecs (ea : Algebrizer) :
    List Ast.SortSpec → Except Error (List Ir.SortSpecification)
  | [] => .ok []
  | .mk key direction :: rest => do
    let k ← match key with
      | .simple e => algebrizeExpression ea e
      | .positional _ => .error Error.positionalSortKey
    let spec := match direction with
      | .asc => Ir.SortSpecification.asc k
      | .desc => Ir.SortSpecification.dsc k
    let tail ← algebrizeSortSpecs ea rest
    .ok (spec :: tail)

/-- `algebrize_expression`.  `algebrize_subpath`, `algebrize_access`,
`algebrize_case`, `algebrize_cast` and the other single-call helpers are
inlined into their dispatch arms (their `Option` defaults are inlined as
direct `Literal(Null)` results). -/
def algebrizeExpression (a : Algebrizer) :
    Ast.Expression → Except Error Ir.Expression
  | .literal l => .ok (.literal (algebrizeLiteral l))
  | .array es => do
    let es' ← algebrizeExprList a es
    .ok (.array es')
  | .document d => do
    let fields ← algebrizeDocPairs a d
    match firstDuplicateKey [] (fields.map Prod.fst) with
    | some k => .error (.duplicateDocumentKey k)
    | none => .ok (.document fields)
  | .identifier i => algebrizeUnqualifiedIdentifier a i
  | .subpath e subpath =>
    (match e with
     | .identifier s => do
       let r ← algebrizePossiblyQualifiedFieldAccess a s subpath
       a.checkExpr r
     | _ => do
       let inner ← algebrizeExpression a e
       a.checkExpr (.fieldAccess inner subpath))
  | .unary op e => do
    let e' ← algebrizeExpression a e
    a.checkExpr (.scalarFunction (unaryOpToScalarFunction op) [e'])
  | .binary l op r => do
    let f ← binaryOpToScalarFunction op
    let l' ← algebrizeExpression a l
    let r' ← algebrizeExpression a r
    a.checkExpr (.scalarFunction f [l', r'])
  | .function f args sq => algebrizeFunction a f args sq
  | .between e low high => do
    let arg ← algebrizeExpression a e
    let mn ← algebrizeExpression a low
    let mx ← algebrizeExpression a high
    a.checkExpr (.scalarFunction .between [arg, mn, mx])
  | .trim spec chars arg => do
    let f := match spec with
      | .leading => Ir.ScalarFunction.ltrim
      | .trailing => Ir.ScalarFunction.rtrim
      | .both => Ir.ScalarFunction.btrim
    let c ← algebrizeExpression a chars
    let g ← algebrizeExpression a arg
    a.checkExpr (.scalarFunction f [c, g])
  | .extract spec arg => do
    let f := match spec with
      | .year => Ir.ScalarFunction.year
      | .month => Ir.ScalarFunction.month
      | .day => Ir.ScalarFunction.day
      | .hour => Ir.ScalarFunction.hour
      | .minute => Ir.ScalarFunction.minute
      | .second => Ir.ScalarFunction.second
    let g ← algebrizeExpression a arg
    a.checkExpr (.scalarFunction f [g])
  -- `algebrize_access` is inlined; a non-string literal subfield takes the
  -- computed-access path with the literal algebrized in place (algebrizing
  -- a literal cannot fail).
  | .access e subfield => do
    let expr' ← algebrizeExpression a e
    match subfield with
    | .literal l =>
      (match l with
       | .string s => a.checkExpr (.fieldAccess expr' s)
       | l' =>
         a.checkExpr (.scalarFunction .computedFieldAccess
           [expr', .literal (algebrizeLiteral l')]))
    | sf => do
      let sf' ← algebrizeExpression a sf
      a.checkExpr (.scalarFunction .computedFieldAccess [expr', sf'])
  | .typeAssertion e t => do
    let e' ← algebrizeExpression a e
    a.checkExpr (.typeAssertion e' t)
  | .caseExpr expr whens els => do
    let else_branch ← algebrizeOptionalWithNullDefault a els
    let expr' ← algebrizeOptionalExpr a expr
    let whens' ← algebrizeWhenBranches a whens
    match expr' with
    | some e0 => a.checkExpr (.simpleCase e0 whens' else_branch)
    | none => a.checkExpr (.searchedCase whens' else_branch)
  | .castExpr e target on_null on_error => do
    let e' ← algebrizeExpression a e
    let onn ← algebrizeOptionalWithNullDefault a on_null
    let one ← algebrizeOptionalWithNullDefault a on_error
    a.checkExpr (.cast e' target onn one)
  | .isExpr e tt => do
    let e' ← algebrizeExpression a e
    a.checkExpr (Ir.Expression.isExpr e' tt)
  | .like e pat escape => do
    let e' ← algebrizeExpression a e
    let p' ← algebrizeExpression a pat
    a.checkExpr (.like e' p' escape)
  | .tuple _ => .error (.cannotBeAlgebrized "tuples")
  -- `algebrize_subquery`, `algebrize_subquery_comparison` and
  -- `algebrize_exists` are inlined into their dispatch arms; standalone
  -- wrappers with the source's names are defined after this block.
  | .subquery q => do
    let se ← algebrizeSubqueryExpr a q
    a.checkExpr (.subqueryExpression se.output_expr se.subquery)
  | .subqueryComparison e op quant sub => do
    let modifier : Ir.SubqueryModifier := match quant with
      | .all => .all
      | .any => .any
    let irop ← binaryOpToSubqueryComparisonOp op
    let arg ← algebrizeExpression a e
    let se ← algebrizeSubqueryExpr a sub
    a.checkExpr (.subqueryComparison irop modifier arg se.output_expr
      se.subquery)
  | .existsExpr q => do
    let exists_ ← algebrizeQuery a.subqueryAlgebrizer q
    a.checkExpr (.existsExpr exists_)

/-- `algebrize_function` (scalar function expressions). -/
def algebrizeFunction (a : Algebrizer) (f : Ast.FunctionName)
    (args : Ast.FunctionArguments) (sq : Option Ast.SetQuantifier) :
    Except Error Ir.Expression :=
  if sq = some .distinct then .error .distinctScalarFunction
  else
    match args with
    | .star => .error .starInNonCount
    | .args ve => do
      let irf ← functionNameToScalarFunction f
      let args' ← algebrizeExprList a ve
      a.checkExpr (.scalarFunction irf args')

/-- Algebrize each expression of a list (first error aborts). -/
def algebrizeExprList (a : Algebrizer) :
    List Ast.Expression → Except Error (List Ir.Expression)
  | [] => .ok []
  | e :: rest => do
    let e' ← algebrizeExpression a e
    let tail ← algebrizeExprList a rest
    .ok (e' :: tail)

/-- Algebrize each value of a keyed expression list. -/
def algebrizeDocPairs (a : Algebrizer) :
    List (String × Ast.Expression) →
    Except Error (List (String × Ir.Expression))
  | [] => .ok []
  | kv :: rest => do
    let v' ← algebrizeExpression a kv.2
    let tail ← algebrizeDocPairs a rest
    .ok ((kv.1, v') :: tail)

/-- Algebrize each when/then branch of a case expression. -/
def algebrizeWhenBranches (a : Algebrizer) :
    List Ast.WhenBranch → Except Error (List Ir.WhenBranch)
  | [] => .ok []
  | .mk w t :: rest => do
    let w' ← algebrizeExpression a w
    let t' ← algebrizeExpression a t
    let tail ← algebrizeWhenBranches a rest
    .ok (.mk w' t' :: tail)

/-- `algebrize_subquery_expr`: algebrize the query under a child
algebrizer (scope + 1), demand a degree-1 result set, and build the
`SubqueryExpr`.  The inner `algebrize_query` dispatch is inlined (for
structural recursion); the degree check is `subqueryExprFromStage`. -/
def algebrizeSubqueryExpr (a : Algebrizer) :
    Ast.Query → Except Error Ir.SubqueryExpr
  | .select q => do
    let subquery ← algebrizeSelectQuery a.subqueryAlgebrizer q
    subqueryExprFromStage a.subqueryAlgebrizer subquery
  | .set q => do
    let subquery ← algebrizeSetQuery a.subqueryAlgebrizer q
    subqueryExprFromStage a.subqueryAlgebrizer subquery

end

/-- `algebrize_select_values_body` (wrapper form;
`algebrize_select_clause`'s `Values` arm inlines this body). -/
def algebrizeSelectValuesBody (a : Algebrizer)
    (exprs : List Ast.SelectValuesExpression) (source : Ir.Stage) :
    Except Error Ir.Stage := do
  let src_rs ← a.checkStage source
  let ea ← a.withMergedMappings src_rs.schema_env
  let expression ← algebrizeSelectValuesList ea [] exprs
  let stage := Ir.Stage.project source expression
  let _ ← a.checkStage stage
  .ok stage

/-- `algebrize_subquery` (wrapper form; `algebrize_expression`'s
`Subquery` arm inlines this body). -/
def algebrizeSubquery (a : Algebrizer) (ast_node : Ast.Query) :
    Except Error Ir.Expression := do
  let se ← algebrizeSubqueryExpr a ast_node
  a.checkExpr (.subqueryExpression se.output_expr se.subquery)

/-- `algebrize_subquery_comparison` (wrapper form, fields positional;
`algebrize_expression`'s arm inlines this body). -/
def algebrizeSubqueryComparison (a : Algebrizer) (expr : Ast.Expression)
    (op : Ast.BinaryOp) (quantifier : Ast.SubqueryQuantifier)
    (subquery : Ast.Query) : Except Error Ir.Expression := do
  let modifier : Ir.SubqueryModifier := match quantifier with
    | .all => .all
    | .any => .any
  let irop ← binaryOpToSubqueryComparisonOp op
  let arg ← algebrizeExpression a expr
  let se ← algebrizeSubqueryExpr a subquery
  a.checkExpr (.subqueryComparison irop modifier arg se.output_expr
    se.subquery)

/-- `algebrize_exists` (wrapper form; `algebrize_expression`'s arm inlines
this body). -/
def algebrizeExists (a : Algebrizer) (ast_node : Ast.Query) :
    Except Error Ir.Expression := do
  let exists_ ← algebrizeQuery a.subqueryAlgebrizer ast_node
  a.checkExpr (.existsExpr exists_)

end Alg

/-! ## Air data model

Modelled from the spec (§3.4): the `air` definitions and visitor modules
are not under `src/`; their shape is pinned by
`air/desugarer/subquery.rs`.  Stage bodies not used by the desugarer are
trimmed to the fields the spec lists; `Match` is modelled in its
`$expr`-wrapped form.  Struct types (`Subquery`, `SubqueryComparison`,
`SubqueryExists`, `LetVariable`) are separate members of the mutual
inductive, as the visitor dispatches on them. -/

namespace Air

/-- `air::LiteralValue` (payloads as in the IR model). -/
inductive LiteralValue where
  | null
  | boolean (b : Bool)
  | integer (i : Int)
  | long (l : Int)
  | double (bits : Int)
  | string (s : String)
deriving DecidableEq, Repr

/-- The MQL untagged operators used by the desugarer. -/
inductive MQLOperator where
  | elemAt | size | gt | lt | eq | and | or | not
deriving DecidableEq, Repr

/-- The SQL-semantic operators used by the desugarer. -/
inductive SQLOperator where
  | or | and | lt | lte | ne | eq | gt | gte
deriving DecidableEq, Repr

/-- `air::SubqueryComparisonOp`. -/
inductive SubqueryComparisonOp where
  | lt | lte | neq | eq | gt | gte
deriving DecidableEq, Repr

/-- `air::SubqueryModifier`. -/
inductive SubqueryModifier where
  | any | all
deriving DecidableEq, Repr

mutual

/-- Air stages (spec §3.4, the subset the subquery desugarer traverses). -/
inductive Stage where
  | collection (db : String) (collection : String)
  | documents (docs : List Expression)
  | project (source : Stage) (specifications : List (String × ProjectItem))
  | replaceWith (source : Stage) (expr : Expression)
  | matchStage (source : Stage) (expr : Expression)
  | limit (source : Stage) (limit : Nat)
  | skip (source : Stage) (skip : Nat)
  | sort (source : Stage) (specs : List (String × Int))
  | unwind (source : Stage) (path : Expression)
  | lookup (source : Stage) (let_vars : Option (List LetVariable))
      (pipeline : Stage) (as_var : String)
  | group (source : Stage) (keys : List (String × Expression))
      (aggregations : List (String × Expression))

/-- Air expressions (spec §3.4, the subset the subquery desugarer
traverses and produces). -/
inductive Expression where
  | literal (l : LiteralValue)
  | fieldRef (name : String)
  | variable (name : String)
  | document (fields : List (String × Expression))
  | array (elems : List Expression)
  | mqlSemanticOperator (op : MQLOperator) (args : List Expression)
  | sqlSemanticOperator (op : SQLOperator) (args : List Expression)
  | letExpr (vars : List LetVariable) (inside : Expression)
  | reduce (input : Expression) (init_value : Expression)
      (inside : Expression)
  | subquery (s : Subquery)
  | subqueryComparison (sc : SubqueryComparison)
  | subqueryExists (se : SubqueryExists)

/-- `air::Subquery`. -/
inductive Subquery where
  | mk (let_bindings : List LetVariable) (output_path : List String)
      (pipeline : Stage)

/-- `air::SubqueryComparison`. -/
inductive SubqueryComparison where
  | mk (op : SubqueryComparisonOp) (modifier : SubqueryModifier)
      (arg : Expression) (subquery : Subquery)

/-- `air::SubqueryExists`. -/
inductive SubqueryExists where
  | mk (let_bindings : List LetVariable) (pipeline : Stage)

/-- `air::LetVariable`. -/
inductive LetVariable where
  | mk (name : String) (expr : Expression)

/-- `air::ProjectItem`. -/
inductive ProjectItem where
  | inclusion
  | exclusion
  | assignment (expr : Expression)

end

/-- The pipeline of a `Subquery`. -/
def Subquery.pipeline : Subquery → Stage
  | .mk _ _ p => p

/-- The let bindings of a `Subquery`. -/
def Subquery.let_bindings : Subquery → List LetVariable
  | .mk lb _ _ => lb

/-- The output path of a `Subquery`. -/
def Subquery.output_path : Subquery → List String
  | .mk _ path _ => path

/-- The inner subquery of a `SubqueryComparison`. -/
def SubqueryComparison.subquery : SubqueryComparison → Subquery
  | .mk _ _ _ sub => sub

/-- The pipeline of a `SubqueryExists`. -/
def SubqueryExists.pipeline : SubqueryExists → Stage
  | .mk _ p => p

/-- `Stage::get_source`.  Modelled from its uses in
`air/desugarer/subquery.rs`: the source of a sourced stage; a source-less
stage (a pipeline root) yields itself. -/
def Stage.getSource : Stage → Stage
  | .collection db c => .collection db c
  | .documents docs => .documents docs
  | .project source _ => source
  | .replaceWith source _ => source
  | .matchStage source _ => source
  | .limit source _ => source
  | .skip source _ => source
  | .sort source _ => source
  | .unwind source _ => source
  | .lookup source _ _ _ => source
  | .group source _ _ => source

/-- `Stage::set_source`.  A source-less stage is returned unchanged. -/
def Stage.setSource (stage newSource : Stage) : Stage :=
  match stage with
  | .collection db c => .collection db c
  | .documents docs => .documents docs
  | .project _ specs => .project newSource specs
  | .replaceWith _ e => .replaceWith newSource e
  | .matchStage _ e => .matchStage newSource e
  | .limit _ n => .limit newSource n
  | .skip _ n => .skip newSource n
  | .sort _ specs => .sort newSource specs
  | .unwind _ p => .unwind newSource p
  | .lookup _ lv p as_v => .lookup newSource lv p as_v
  | .group _ keys aggs => .group newSource keys aggs

/-- `matches!(*pipeline, Limit(Limit { source: _, limit: 1 }))`. -/
def Stage.isLimitOne : Stage → Bool
  | .limit _ n => n = 1
  | _ => false

/-- `matches!(stage, Stage::Group(_))`. -/
def Stage.isGroup : Stage → Bool
  | .group _ _ _ => true
  | _ => false

/-! ## Subquery-expression desugarer (`air/desugarer/subquery.rs`)

Embedded from `src/mongosql/src/air/desugarer/subquery.rs`.  The visitor
`walk` functions (`air::visitor`, not under `src/`) are modelled from the
spec (§5): traversal is left-to-right, depth-first,
children-before-parent, visiting each stage's source before its
expression children, in field-declaration order.  Visitor state is
threaded explicitly: each function takes and returns its visitor's
state. -/

/-- `desugarer::Error` (from `air/desugarer/mod.rs`). -/
inductive DesugarerError where
  | todoError
  | invalidLikePatternError
deriving DecidableEq, Repr

/-! ### `SubqueryLimitAdder` (the pre-walk)

State: the `ignore_subquery_comp_subquery` flag.  Only `visit_subquery`,
`visit_subquery_comparison` and `visit_subquery_exists` are overridden;
all other nodes are walked structurally. -/

mutual

/-- The limit adder's traversal of a stage (default `visit_stage` =
`walk`). -/
def laStage (b : Bool) : Stage → Stage × Bool
  | .collection db c => (.collection db c, b)
  | .documents docs =>
    let r := laExprList b docs
    (.documents r.1, r.2)
  | .project src specs =>
    let r1 := laStage b src
    let r2 := laProjectItems r1.2 specs
    (.project r1.1 r2.1, r2.2)
  | .replaceWith src e =>
    let r1 := laStage b src
    let r2 := laExpr r1.2 e
    (.replaceWith r1.1 r2.1, r2.2)
  | .matchStage src e =>
    let r1 := laStage b src
    let r2 := laExpr r1.2 e
    (.matchStage r1.1 r2.1, r2.2)
  | .limit src n =>
    let r := laStage b src
    (.limit r.1 n, r.2)
  | .skip src n =>
    let r := laStage b src
    (.skip r.1 n, r.2)
  | .sort src specs =>
    let r := laStage b src
    (.sort r.1 specs, r.2)
  | .unwind src p =>
    let r1 := laStage b src
    let r2 := laExpr r1.2 p
    (.unwind r1.1 r2.1, r2.2)
  | .lookup src lv p as_v =>
    let r1 := laStage b src
    let r2 := laOptLetVars r1.2 lv
    let r3 := laStage r2.2 p
    (.lookup r1.1 r2.1 r3.1 as_v, r3.2)
  | .group src keys aggs =>
    let r1 := laStage b src
    let r2 := laPairList r1.2 keys
    let r3 := laPairList r2.2 aggs
    (.group r1.1 r2.1 r3.1, r3.2)

/-- The limit adder's traversal of an expression (default
`visit_expression` = `walk`, dispatching the subquery structs to their
overridden visitors). -/
def laExpr (b : Bool) : Expression → Expression × Bool
  | .literal l => (.literal l, b)
  | .fieldRef s => (.fieldRef s, b)
  | .variable s => (.variable s, b)
  | .document kvs =>
    let r := laPairList b kvs
    (.document r.1, r.2)
  | .array es =>
    let r := laExprList b es
    (.array r.1, r.2)
  | .mqlSemanticOperator op args =>
    let r := laExprList b args
    (.mqlSemanticOperator op r.1, r.2)
  | .sqlSemanticOperator op args =>
    let r := laExprList b args
    (.sqlSemanticOperator op r.1, r.2)
  | .letExpr vars inside =>
    let r1 := laLetVars b vars
    let r2 := laExpr r1.2 inside
    (.letExpr r1.1 r2.1, r2.2)
  | .reduce input init_value inside =>
    let r1 := laExpr b input
    let r2 := laExpr r1.2 init_value
    let r3 := laExpr r2.2 inside
    (.reduce r1.1 r2.1 r3.1, r3.2)
  | .subquery s =>
    let r := laSubquery b s
    (.subquery r.1, r.2)
  | .subqueryComparison sc =>
    let r := laSubqueryComparison b sc
    (.subqueryComparison r.1, r.2)
  | .subqueryExists se =>
    let r := laSubqueryExists b se
    (.subqueryExists r.1, r.2)

/-- `SubqueryLimitAdder::visit_subquery`: walk the node, then append
`Limit(1)` to its pipeline unless the flag is set (after the walk, as the
source reads the field then) or the pipeline already ends with
`Limit(1)`. -/
def laSubquery (b : Bool) : Subquery → Subquery × Bool
  | .mk lb path p =>
    let r1 := laLetVars b lb
    let r2 := laStage r1.2 p
    if r2.2 || (r2.1).isLimitOne then
      (.mk r1.1 path r2.1, r2.2)
    else
      (.mk r1.1 path (.limit r2.1 1), r2.2)

/-- `SubqueryLimitAdder::visit_subquery_comparison`: set the flag, walk
the node (argument first, then the inner subquery, in field order), then
reset the flag to `false`. -/
def laSubqueryComparison (_b : Bool) :
    SubqueryComparison → SubqueryComparison × Bool
  | .mk op md arg sub =>
    let r1 := laExpr true arg
    let r2 := laSubquery r1.2 sub
    (.mk op md r1.1 r2.1, false)

/-- `SubqueryLimitAdder::visit_subquery_exists`: walk the node, then
append `Limit(1)` to its pipeline unless it already ends with `Limit(1)`
(the flag is not consulted). -/
def laSubqueryExists (b : Bool) : SubqueryExists → SubqueryExists × Bool
  | .mk lb p =>
    let r1 := laLetVars b lb
    let r2 := laStage r1.2 p
    if (r2.1).isLimitOne then
      (.mk r1.1 r2.1, r2.2)
    else
      (.mk r1.1 (.limit r2.1 1), r2.2)

/-- Walk each expression of a list. -/
def laExprList (b : Bool) : List Expression → List Expression × Bool
  | [] => ([], b)
  | e :: rest =>
    let r1 := laExpr b e
    let r2 := laExprList r1.2 rest
    (r1.1 :: r2.1, r2.2)

/-- Walk each value of a keyed expression list. -/
def laPairList (b : Bool) :
    List (String × Expression) → List (String × Expression) × Bool
  | [] => ([], b)
  | kv :: rest =>
    let r1 := laExpr b kv.2
    let r2 := laPairList r1.2 rest
    ((kv.1, r1.1) :: r2.1, r2.2)

/-- Walk each project item of a specification list. -/
def laProjectItems (b : Bool) :
    List (String × ProjectItem) → List (String × ProjectItem) × Bool
  | [] => ([], b)
  | kv :: rest =>
    let r1 := laProjectItem b kv.2
    let r2 := laProjectItems r1.2 rest
    ((kv.1, r1.1) :: r2.1, r2.2)

/-- Walk a project item (only assignments carry expressions). -/
def laProjectItem (b : Bool) : ProjectItem → ProjectItem × Bool
  | .inclusion => (.inclusion, b)
  | .exclusion => (.exclusion, b)
  | .assignment e =>
    let r := laExpr b e
    (.assignment r.1, r.2)

/-- Walk each let variable of a list. -/
def laLetVars (b : Bool) : List LetVariable → List LetVariable × Bool
  | [] => ([], b)
  | .mk name e :: rest =>
    let r1 := laExpr b e
    let r2 := laLetVars r1.2 rest
    (.mk name r1.1 :: r2.1, r2.2)

/-- Walk an optional let-variable list. -/
def laOptLetVars (b : Bool) :
    Option (List LetVariable) → Option (List LetVariable) × Bool
  | none => (none, b)
  | some vars =>
    let r := laLetVars b vars
    (some r.1, r.2)

end

/-- The whole pre-walk: `SubqueryLimitAdder::default().visit_stage(p)`. -/
def subqueryLimitAdderRun (pipeline : Stage) : Stage :=
  (laStage false pipeline).1

/-! ### `SubqueryExprDesugarerPassVisitor` (the main pass) -/

/-- The visitor state: the per-stage `u8` subquery counter (stored modulo
256, as `u8` addition wraps), the `as_names` pushed so far, and the
accumulated `subquery_lookups` chain. -/
structure VState where
  subquery_counter : Nat
  as_names : List String
  subquery_lookups : Stage

/-- `process_subquery_expr`: allocate the next
`"__subquery_result_<n>"` name, push it, wrap the current lookup chain in
a new `Lookup`, and increment the `u8` counter (wrapping at 256). -/
def processSubqueryExpr (vs : VState) (let_bindings : List LetVariable)
    (pipeline : Stage) : String × VState :=
  let as_var := "__subquery_result_" ++ Nat.repr vs.subquery_counter
  let let_vars := if let_bindings.isEmpty then none else some let_bindings
  (as_var,
   { subquery_counter := (vs.subquery_counter + 1) % 256,
     as_names := vs.as_names ++ [as_var],
     subquery_lookups :=
       .lookup vs.subquery_lookups let_vars pipeline as_var })

/-- `desugar_subquery`: the replacement
`Let { docExpr := $arrayElemAt($as_name, 0), in: $$docExpr.<path> }`. -/
def desugarSubquery (vs : VState) : Subquery → Expression × VState
  | .mk let_bindings output_path pipeline =>
    let r := processSubqueryExpr vs let_bindings pipeline
    let var_name := "docExpr"
    let path := var_name ++ "." ++ String.intercalate "." output_path
    (.letExpr
      [.mk var_name (.mqlSemanticOperator .elemAt
        [.fieldRef r.1, .literal (.integer 0)])]
      (.variable path), r.2)

/-- `desugar_subquery_comparison`: the replacement
`$reduce { input: $as_name, init: boolFor(modifier),
in: combinator($$value, op(arg, $$this.<path>)) }`. -/
def desugarSubqueryComparison (vs : VState) :
    SubqueryComparison → Expression × VState
  | .mk op modifier arg sub =>
    match sub with
    | .mk let_bindings output_path pipeline =>
      let r := processSubqueryExpr vs let_bindings pipeline
      let iv_comb : Expression × SQLOperator := match modifier with
        | .any => (.literal (.boolean false), .or)
        | .all => (.literal (.boolean true), .and)
      let comp_op : SQLOperator := match op with
        | .lt => .lt
        | .lte => .lte
        | .neq => .ne
        | .eq => .eq
        | .gt => .gt
        | .gte => .gte
      let path := "this." ++ String.intercalate "." output_path
      (.reduce (.fieldRef r.1) iv_comb.1
        (.sqlSemanticOperator iv_comb.2
          [.variable "value",
           .sqlSemanticOperator comp_op [arg, .variable path]]), r.2)

/-- `desugar_subquery_exists`: the replacement
`$gt [ $size($as_name), 0 ]`. -/
def desugarSubqueryExists (vs : VState) :
    SubqueryExists → Expression × VState
  | .mk let_bindings pipeline =>
    let r := processSubqueryExpr vs let_bindings pipeline
    (.mqlSemanticOperator .gt
      [.mqlSemanticOperator .size [.fieldRef r.1],
       .literal (.integer 0)], r.2)

/-- The specifications of the appended `Project`: each `as_name` excluded
(in order), then `_id` included exactly when the containing stage is a
`Group`. -/
def exclusionSpecs (as_names : List String) (isGroup : Bool) :
    List (String × ProjectItem) :=
  as_names.map (fun n => (n, ProjectItem.exclusion)) ++
    [("_id", if isGroup then ProjectItem.inclusion else ProjectItem.exclusion)]

mutual

/-- `SubqueryExprDesugarerPassVisitor::visit_stage`: save the state, reset
it (counter 0, no names, lookups = the stage's source), walk the stage
(the `Stage::walk` body is inlined as the inner match), then — when any
subquery expression was replaced — set the walked stage's source to the
lookup chain and append the exclusion `Project`; finally restore the saved
state. -/
def dvStage (vs : VState) (stage : Stage) : Stage × VState :=
  let vs0 : VState := ⟨0, [], stage.getSource⟩
  let walked : Stage × VState :=
    match stage with
    | .collection db c => (.collection db c, vs0)
    | .documents docs =>
      let r := dvExprList vs0 docs
      (.documents r.1, r.2)
    | .project src specs =>
      let r1 := dvStage vs0 src
      let r2 := dvProjectItems r1.2 specs
      (.project r1.1 r2.1, r2.2)
    | .replaceWith src e =>
      let r1 := dvStage vs0 src
      let r2 := dvExpr r1.2 e
      (.replaceWith r1.1 r2.1, r2.2)
    | .matchStage src e =>
      let r1 := dvStage vs0 src
      let r2 := dvExpr r1.2 e
      (.matchStage r1.1 r2.1, r2.2)
    | .limit src n =>
      let r := dvStage vs0 src
      (.limit r.1 n, r.2)
    | .skip src n =>
      let r := dvStage vs0 src
      (.skip r.1 n, r.2)
    | .sort src specs =>
      let r := dvStage vs0 src
      (.sort r.1 specs, r.2)
    | .unwind src p =>
      let r1 := dvStage vs0 src
      let r2 := dvExpr r1.2 p
      (.unwind r1.1 r2.1, r2.2)
    | .lookup src lv p as_v =>
      let r1 := dvStage vs0 src
      let r2 := dvOptLetVars r1.2 lv
      let r3 := dvStage r2.2 p
      (.lookup r1.1 r2.1 r3.1 as_v, r3.2)
    | .group src keys aggs =>
      let r1 := dvStage vs0 src
      let r2 := dvPairList r1.2 keys
      let r3 := dvPairList r2.2 aggs
      (.group r1.1 r2.1 r3.1, r3.2)
  let new_stage :=
    if walked.2.subquery_counter = 0 then walked.1
    else
      let prepended := (walked.1).setSource walked.2.subquery_lookups
      Stage.project prepended
        (exclusionSpecs walked.2.as_names prepended.isGroup)
  (new_stage, vs)

/-- `SubqueryExprDesugarerPassVisitor::visit_expression`: walk the node
(the `Expression::walk` body is inlined as the inner match), then replace
a subquery expression with its desugared form. -/
def dvExpr (vs : VState) (e : Expression) : Expression × VState :=
  let walked : Expression × VState :=
    match e with
    | .literal l => (.literal l, vs)
    | .fieldRef s => (.fieldRef s, vs)
    | .variable s => (.variable s, vs)
    | .document kvs =>
      let r := dvPairList vs kvs
      (.document r.1, r.2)
    | .array es =>
      let r := dvExprList vs es
      (.array r.1, r.2)
    | .mqlSemanticOperator op args =>
      let r := dvExprList vs args
      (.mqlSemanticOperator op r.1, r.2)
    | .sqlSemanticOperator op args =>
      let r := dvExprList vs args
      (.sqlSemanticOperator op r.1, r.2)
    | .letExpr vars inside =>
      let r1 := dvLetVars vs vars
      let r2 := dvExpr r1.2 inside
      (.letExpr r1.1 r2.1, r2.2)
    | .reduce input init_value inside =>
      let r1 := dvExpr vs input
      let r2 := dvExpr r1.2 init_value
      let r3 := dvExpr r2.2 inside
      (.reduce r1.1 r2.1 r3.1, r3.2)
    | .subquery s =>
      let r := dvSubquery vs s
      (.subquery r.1, r.2)
    | .subqueryComparison sc =>
      (match sc with
       | .mk op md arg sub =>
         let r1 := dvExpr vs arg
         let r2 := dvSubquery r1.2 sub
         (.subqueryComparison (.mk op md r1.1 r2.1), r2.2))
    | .subqueryExists se =>
      (match se with
       | .mk lb p =>
         let r1 := dvLetVars vs lb
         let r2 := dvStage r1.2 p
         (.subqueryExists (.mk r1.1 r2.1), r2.2))
  match walked.1 with
  | .subquery s => desugarSubquery walked.2 s
  | .subqueryComparison sc => desugarSubqueryComparison walked.2 sc
  | .subqueryExists se => desugarSubqueryExists walked.2 se
  | other => (other, walked.2)

/-- The default `visit_subquery` (not overridden in the main pass): walk
the let bindings, then the pipeline. -/
def dvSubquery (vs : VState) : Subquery → Subquery × VState
  | .mk lb path p =>
    let r1 := dvLetVars vs lb
    let r2 := dvStage r1.2 p
    (.mk r1.1 path r2.1, r2.2)

/-- Walk each expression of a list. -/
def dvExprList (vs : VState) : List Expression → List Expression × VState
  | [] => ([], vs)
  | e :: rest =>
    let r1 := dvExpr vs e
    let r2 := dvExprList r1.2 rest
    (r1.1 :: r2.1, r2.2)

/-- Walk each value of a keyed expression list. -/
def dvPairList (vs : VState) :
    List (String × Expression) → List (String × Expression) × VState
  | [] => ([], vs)
  | kv :: rest =>
    let r1 := dvExpr vs kv.2
    let r2 := dvPairList r1.2 rest
    ((kv.1, r1.1) :: r2.1, r2.2)

/-- Walk each project item of a specification list. -/
def dvProjectItems (vs : VState) :
    List (String × ProjectItem) → List (String × ProjectItem) × VState
  | [] => ([], vs)
  | kv :: rest =>
    let r1 := dvProjectItem vs kv.2
    let r2 := dvProjectItems r1.2 rest
    ((kv.1, r1.1) :: r2.1, r2.2)

/-- Walk a project item. -/
def dvProjectItem (vs : VState) : ProjectItem → ProjectItem × VState
  | .inclusion => (.inclusion, vs)
  | .exclusion => (.exclusion, vs)
  | .assignment e =>
    let r := dvExpr vs e
    (.assignment r.1, r.2)

/-- Walk each let variable of a list. -/
def dvLetVars (vs : VState) : List LetVariable → List LetVariable × VState
  | [] => ([], vs)
  | .mk name e :: rest =>
    let r1 := dvExpr vs e
    let r2 := dvLetVars r1.2 rest
    (.mk name r1.1 :: r2.1, r2.2)

/-- Walk an optional let-variable list. -/
def dvOptLetVars (vs : VState) :
    Option (List LetVariable) → Option (List LetVariable) × VState
  | none => (none, vs)
  | some vars =>
    let r := dvLetVars vs vars
    (some r.1, r.2)

end

/-- `SubqueryExprDesugarerPass::apply`: run the pre-walk, then the main
visitor with counter 0, no names, and the pipeline's source as the initial
lookup chain. -/
def subqueryExprDesugarerPassApply (pipeline : Stage) :
    Except DesugarerError Stage :=
  let pipeline := subqueryLimitAdderRun pipeline
  let vs : VState := ⟨0, [], pipeline.getSource⟩
  .ok (dvStage vs pipeline).1

end Air

/-! ## MQL code generation (`codegen/mql.rs`)

Embedded from `src/mongosql/src/codegen/mql.rs`.  The `codegen::Error`
enum (its module file is not under `src/`) is modelled from its uses in
`mql.rs`; the `unimplemented!()` panics on untranslated stage and
expression variants are modelled as the distinguished error
`unimplemented`. -/

namespace Mql

/-- A BSON value (the subset produced by the code generator). -/
inductive Bson where
  | null
  | boolean (b : Bool)
  | int32 (i : Int)
  | int64 (i : Int)
  | double (bits : Int)
  | string (s : String)
  | array (elems : List Bson)
  | document (fields : List (String × Bson))

/-- `codegen::Error`, modelled from its uses in `mql.rs`;
`unimplemented` models the `unimplemented!()` panics. -/
inductive Error where
  | invalidSortKey
  | referenceNotFound (k : Key)
  | dotsOrDollarsInFieldName
  | unimplemented (what : String)
deriving DecidableEq, Repr

/-- `MappingRegistry`: a map from binding-tuple keys to physical field
names (a `HashMap` in the source; modelled as an association list where
the most recent insertion wins). -/
abbrev MappingRegistry := List (Key × String)

/-- Registry lookup. -/
def MappingRegistry.get (m : MappingRegistry) (k : Key) : Option String :=
  (m.find? (fun kv => kv.1 = k)).map (fun kv => kv.2)

/-- `MappingRegistry::merge`: entries of `other` overwrite existing
ones. -/
def MappingRegistry.mergeWith (m other : MappingRegistry) :
    MappingRegistry :=
  other ++ m

/-- `MqlTranslation`. -/
structure MqlTranslation where
  database : Option String
  collection : Option String
  mapping_registry : MappingRegistry
  pipeline : List Bson

/-- `MqlTranslation::with_additional_stage`. -/
def MqlTranslation.withAdditionalStage (t : MqlTranslation)
    (stage : Bson) : MqlTranslation :=
  { t with pipeline := t.pipeline ++ [stage] }

/-- `MqlCodeGenerator` (just the mapping registry). -/
structure MqlCodeGenerator where
  mapping_registry : MappingRegistry

/-- `MqlCodeGenerator::with_merged_mappings`. -/
def MqlCodeGenerator.withMergedMappings (g : MqlCodeGenerator)
    (mappings : MappingRegistry) : MqlCodeGenerator :=
  { mapping_registry := g.mapping_registry.mergeWith mappings }

mutual

/-- `codegen_expression`. -/
def codegenExpression (g : MqlCodeGenerator) :
    Ir.Expression → Except Error Bson
  | .literal lit =>
    .ok (.document [("$literal",
      match lit with
      | .null => Bson.null
      | .boolean b => Bson.boolean b
      | .string s => Bson.string s
      | .integer i => Bson.int32 i
      | .long l => Bson.int64 l
      | .double d => Bson.double d)])
  | .reference key =>
    match g.mapping_registry.get key with
    | some s => .ok (.string ("$" ++ s))
    | none => .error (.referenceNotFound key)
  | .array exprs => do
    let elems ← codegenExprList g exprs
    .ok (.array elems)
  | .document fields =>
    if fields.isEmpty then
      .ok (.document [("$literal", .document [])])
    else do
      let kvs ← codegenDocPairs g fields
      .ok (.document kvs)
  | .fieldAccess e field =>
    if field.data.any (fun c => c == '.' || c == '$') then
      .error .dotsOrDollarsInFieldName
    else do
      let inner ← codegenExpression g e
      match inner with
      | .string s => .ok (.string (s ++ "." ++ field))
      | other =>
        .ok (.document [("$let", .document
          [("vars", .document [("docExpr", other)]),
           ("in", .string ("$$docExpr." ++ field))])])
  | .scalarFunction _ _ => .error (.unimplemented "Function")
  | .subqueryExpression _ _ => .error (.unimplemented "SubqueryExpression")
  | .subqueryComparison _ _ _ _ _ =>
    .error (.unimplemented "SubqueryComparison")
  | .existsExpr _ => .error (.unimplemented "Exists")
  | .cast _ _ _ _ => .error (.unimplemented "Cast")
  | .simpleCase _ _ _ => .error (.unimplemented "SimpleCase")
  | .searchedCase _ _ => .error (.unimplemented "SearchedCase")
  | .typeAssertion _ _ => .error (.unimplemented "TypeAssertion")
  | .isExpr _ _ => .error (.unimplemented "Is")
  | .like _ _ _ => .error (.unimplemented "Like")

/-- Code for each expression of a list. -/
def codegenExprList (g : MqlCodeGenerator) :
    List Ir.Expression → Except Error (List Bson)
  | [] => .ok []
  | e :: rest => do
    let b ← codegenExpression g e
    let tail ← codegenExprList g rest
    .ok (b :: tail)

/-- Code for each value of a document, rejecting `$`-prefixed keys. -/
def codegenDocPairs (g : MqlCodeGenerator) :
    List (String × Ir.Expression) → Except Error (List (String × Bson))
  | [] => .ok []
  | kv :: rest =>
    if (match kv.1.data with | c :: _ => c == '$' | [] => false) then
      .error .dotsOrDollarsInFieldName
    else do
      let b ← codegenExpression g kv.2
      let tail ← codegenDocPairs g rest
      .ok ((kv.1, b) :: tail)

end

/-- Whether a sort-key expression is a `Reference` or a `FieldAccess`
(the first check of `codegen_sort`'s per-spec closure). -/
def isSortKeyShape : Ir.Expression → Bool
  | .reference _ => true
  | .fieldAccess _ _ => true
  | _ => false

/-- The per-spec closure of `codegen_sort`: destructure the direction,
reject non-`Reference`/`FieldAccess` keys with `InvalidSortKey`, generate
the expression's code (propagating its errors), demand a string result
(else `InvalidSortKey`), and strip the leading `$`. -/
def codegenSortSpec (g : MqlCodeGenerator) (spec : Ir.SortSpecification) :
    Except Error (String × Bson) :=
  let ed : Ir.Expression × Bson := match spec with
    | .asc e => (e, .int32 1)
    | .dsc e => (e, .int32 (-1))
  if ¬isSortKeyShape ed.1 then .error .invalidSortKey
  else do
    let code ← codegenExpression g ed.1
    match code with
    | .string s => .ok (s.drop 1, ed.2)
    | _ => .error .invalidSortKey

/-- The collected sort specifications (first error aborts). -/
def codegenSortSpecList (g : MqlCodeGenerator) :
    List Ir.SortSpecification → Except Error (List (String × Bson))
  | [] => .ok []
  | spec :: rest => do
    let kv ← codegenSortSpec g spec
    let tail ← codegenSortSpecList g rest
    .ok (kv :: tail)

mutual

/-- `codegen_stage`. -/
def codegenStage (g : MqlCodeGenerator) :
    Ir.Stage → Except Error MqlTranslation
  | .filter source condition => do
    let t ← codegenStage g source
    let cond ← codegenExpression g condition
    .ok (t.withAdditionalStage
      (.document [("$match", .document [("$expr", cond)])]))
  | .project _ _ => .error (.unimplemented "Project")
  | .group _ _ _ => .error (.unimplemented "Group")
  | .limit source n => do
    let t ← codegenStage g source
    .ok (t.withAdditionalStage (.document [("$limit", .int64 n)]))
  | .offset source n => do
    let t ← codegenStage g source
    .ok (t.withAdditionalStage (.document [("$skip", .int64 n)]))
  | .sort source specs => codegenSort g source specs
  | .collection db c =>
    .ok { database := some db,
          collection := some c,
          mapping_registry := [(⟨.named c, 0⟩, c)],
          pipeline := [.document [("$project", .document
            [("_id", .int32 0), (c, .string "$$ROOT")])]] }
  | .array exprs alias_ => do
    let docs ← codegenExprList g exprs
    .ok { database := none,
          collection := none,
          mapping_registry := [(⟨.named alias_, 0⟩, alias_)],
          pipeline := [.document [("$array", .document
            [(alias_, .array docs)])]] }
  | .join _ _ _ _ => .error (.unimplemented "Join")
  | .set _ _ _ => .error (.unimplemented "Set")

/-- `codegen_sort` (the `ir::Sort` fields are passed positionally):
translate the source, merge the source's mappings into the expression
generator, translate each sort specification, and append the `$sort`
stage. -/
def codegenSort (g : MqlCodeGenerator) (source : Ir.Stage)
    (specs : List Ir.SortSpecification) : Except Error MqlTranslation := do
  let source_translation ← codegenStage g source
  let expr_code_generator :=
    g.withMergedMappings source_translation.mapping_registry
  let sort_specs ← codegenSortSpecList expr_code_generator specs
  .ok (source_translation.withAdditionalStage
    (.document [("$sort", .document sort_specs)]))

end

end Mql

/-! ## Auxiliary measures and predicates used in theorem statements -/

/-- Nesting depth of an `Ir.Stage` through its source stages (induction
measure only; not part of the embedded program). -/
def Ir.Stage.srcDepth : Ir.Stage → Nat
  | .collection _ _ => 0
  | .array _ _ => 0
  | .project s _ => s.srcDepth + 1
  | .filter s _ => s.srcDepth + 1
  | .group s _ _ => s.srcDepth + 1
  | .sort s _ => s.srcDepth + 1
  | .limit s _ => s.srcDepth + 1
  | .offset s _ => s.srcDepth + 1
  | .join _ l r _ => max l.srcDepth r.srcDepth + 1
  | .set _ l r => max l.srcDepth r.srcDepth + 1

/-- The keys of the datasources at scope `scope` whose schema `Must`
contain field `i`, in environment order (statement device for the
scope-by-scope resolution loop). -/
def mustKeysAt (i : String) (scope : Nat) : SchemaEnvironment → List Key
  | [] => []
  | kv :: rest =>
    if kv.1.scope = scope then
      match kv.2.containsField i with
      | .must => kv.1 :: mustKeysAt i scope rest
      | .may => mustKeysAt i scope rest
      | .not => mustKeysAt i scope rest
    else mustKeysAt i scope rest

/-- The number of datasources at scope `scope` whose schema `May` contain
field `i`. -/
def maysCountAt (i : String) (scope : Nat) : SchemaEnvironment → Nat
  | [] => 0
  | kv :: rest =>
    if kv.1.scope = scope then
      match kv.2.containsField i with
      | .must => maysCountAt i scope rest
      | .may => maysCountAt i scope rest + 1
      | .not => maysCountAt i scope rest
    else maysCountAt i scope rest

namespace Air

mutual

/-- Whether a stage's subtree contains any subquery expression
(`Subquery`, `SubqueryComparison` or `SubqueryExists`); statement device
for the desugarer claims. -/
def stageHasSubquery : Stage → Bool
  | .collection _ _ => false
  | .documents docs => exprsHaveSubquery docs
  | .project src specs =>
    stageHasSubquery src || itemsHaveSubquery specs
  | .replaceWith src e => stageHasSubquery src || exprHasSubquery e
  | .matchStage src e => stageHasSubquery src || exprHasSubquery e
  | .limit src _ => stageHasSubquery src
  | .skip src _ => stageHasSubquery src
  | .sort src _ => stageHasSubquery src
  | .unwind src p => stageHasSubquery src || exprHasSubquery p
  | .lookup src lv p _ =>
    stageHasSubquery src || optLetVarsHaveSubquery lv || stageHasSubquery p
  | .group src keys aggs =>
    stageHasSubquery src || pairsHaveSubquery keys || pairsHaveSubquery aggs

/-- Whether an expression's subtree contains any subquery expression. -/
def exprHasSubquery : Expression → Bool
  | .literal _ => false
  | .fieldRef _ => false
  | .variable _ => false
  | .document kvs => pairsHaveSubquery kvs
  | .array es => exprsHaveSubquery es
  | .mqlSemanticOperator _ args => exprsHaveSubquery args
  | .sqlSemanticOperator _ args => exprsHaveSubquery args
  | .letExpr vars inside =>
    letVarsHaveSubquery vars || exprHasSubquery inside
  | .reduce input init_value inside =>
    exprHasSubquery input || exprHasSubquery init_value
      || exprHasSubquery inside
  | .subquery _ => true
  | .subqueryComparison _ => true
  | .subqueryExists _ => true

/-- Any subquery expression in a list of expressions. -/
def exprsHaveSubquery : List Expression → Bool
  | [] => false
  | e :: rest => exprHasSubquery e || exprsHaveSubquery rest

/-- Any subquery expression in the values of a keyed expression list. -/
def pairsHaveSubquery : List (String × Expression) → Bool
  | [] => false
  | kv :: rest => exprHasSubquery kv.2 || pairsHaveSubquery rest

/-- Any subquery expression in a project-item list. -/
def itemsHaveSubquery : List (String × ProjectItem) → Bool
  | [] => false
  | kv :: rest => itemHasSubquery kv.2 || itemsHaveSubquery rest

/-- Any subquery expression in a project item. -/
def itemHasSubquery : ProjectItem → Bool
  | .inclusion => false
  | .exclusion => false
  | .assignment e => exprHasSubquery e

/-- Any subquery expression in a let-variable list. -/
def letVarsHaveSubquery : List LetVariable → Bool
  | [] => false
  | .mk _ e :: rest => exprHasSubquery e || letVarsHaveSubquery rest

/-- Any subquery expression in an optional let-variable list. -/
def optLetVarsHaveSubquery : Option (List LetVariable) → Bool
  | none => false
  | some vars => letVarsHaveSubquery vars

end

/-- The inlined `Stage::walk` part of `dvStage`, as a standalone function
(statement device: `dvStage` is the composition of this walk with the
counter test and the `Project` postprocessing). -/
def dvWalkStage (vs0 : VState) : Stage → Stage × VState
  | .collection db c => (.collection db c, vs0)
  | .documents docs =>
    let r := dvExprList vs0 docs
    (.documents r.1, r.2)
  | .project src specs =>
    let r1 := dvStage vs0 src
    let r2 := dvProjectItems r1.2 specs
    (.project r1.1 r2.1, r2.2)
  | .replaceWith src e =>
    let r1 := dvStage vs0 src
    let r2 := dvExpr r1.2 e
    (.replaceWith r1.1 r2.1, r2.2)
  | .matchStage src e =>
    let r1 := dvStage vs0 src
    let r2 := dvExpr r1.2 e
    (.matchStage r1.1 r2.1, r2.2)
  | .limit src n =>
    let r := dvStage vs0 src
    (.limit r.1 n, r.2)
  | .skip src n =>
    let r := dvStage vs0 src
    (.skip r.1 n, r.2)
  | .sort src specs =>
    let r := dvStage vs0 src
    (.sort r.1 specs, r.2)
  | .unwind src p =>
    let r1 := dvStage vs0 src
    let r2 := dvExpr r1.2 p
    (.unwind r1.1 r2.1, r2.2)
  | .lookup src lv p as_v =>
    let r1 := dvStage vs0 src
    let r2 := dvOptLetVars r1.2 lv
    let r3 := dvStage r2.2 p
    (.lookup r1.1 r2.1 r3.1 as_v, r3.2)
  | .group src keys aggs =>
    let r1 := dvStage vs0 src
    let r2 := dvPairList r1.2 keys
    let r3 := dvPairList r2.2 aggs
    (.group r1.1 r2.1 r3.1, r3.2)

/-- Iterated `process_subquery_expr` calls (one per subquery expression
encountered in a stage), with the let bindings and pipeline of each
call. -/
def processCalls : VState → List (List LetVariable × Stage) → VState
  | vs, [] => vs
  | vs, a :: rest => processCalls (processSubqueryExpr vs a.1 a.2).2 rest

/-- The `as_name`s generated for counters `0, …, k-1`. -/
def namesUpTo (k : Nat) : List String :=
  (List.range k).map (fun j => "__subquery_result_" ++ Nat.repr j)

end Air

/-! ## Theorems

General evaluation and inversion lemmas for `Except`, then the claim
theorems. -/

@[simp] theorem exceptBindOk {ε α β : Type} (x : α) (f : α → Except ε β) :
    (Except.ok x >>= f) = f x := rfl

@[simp] theorem exceptBindError {ε α β : Type} (e : ε) (f : α → Except ε β) :
    ((Except.error e : Except ε α) >>= f) = Except.error e := rfl

@[simp] theorem exceptMapOk {ε α β : Type} (x : α) (f : α → β) :
    ((Except.ok x : Except ε α).map f) = Except.ok (f x) := rfl

@[simp] theorem exceptMapError {ε α β : Type} (e : ε) (f : α → β) :
    ((Except.error e : Except ε α).map f) = Except.error e := rfl

@[simp] theorem exceptMapErrorOk {ε ε' α : Type} (x : α) (f : ε → ε') :
    ((Except.ok x : Except ε α).mapError f) = Except.ok x := rfl

@[simp] theorem exceptMapErrorError {ε ε' α : Type} (e : ε) (f : ε → ε') :
    ((Except.error e : Except ε α).mapError f) = Except.error (f e) := rfl

@[simp] theorem exceptPureEq {ε α : Type} (x : α) :
    (pure x : Except ε α) = Except.ok x := rfl

/-- Inversion of a successful `Except` bind. -/
theorem exceptBindInvOk {ε α β : Type} {x : Except ε α} {f : α → Except ε β}
    {b : β} (h : (x >>= f) = .ok b) : ∃ a, x = .ok a ∧ f a = .ok b := by
  cases x with
  | ok a => exact ⟨a, rfl, h⟩
  | error e => exact absurd h (by simp)

/-- Inversion of a successful `Except.mapError`. -/
theorem exceptMapErrorInvOk {ε ε' α : Type} {x : Except ε α} {f : ε → ε'}
    {a : α} (h : x.mapError f = .ok a) : x = .ok a := by
  cases x with
  | ok b => simpa using h
  | error e => simp at h

namespace Ir

set_option maxHeartbeats 8000000 in
/-- Helper for C8 (strong induction on source nesting depth): on every
stage whose inference succeeds, a known `max_size` bounds `min_size`
from above. -/
theorem minSizeLeMaxSizeAux (n : Nat) :
    ∀ (s : Stage), s.srcDepth = n →
    ∀ (st : SchemaInferenceState) (rs : ResultSet),
      inferStage st s = .ok rs → ∀ m, rs.max_size = some m →
      rs.min_size ≤ m := by
  induction n using Nat.strong_induction_on with
  | _ n ih =>
  have IH : ∀ (s' : Stage), s'.srcDepth < n →
      ∀ (st' : SchemaInferenceState) (rs' : ResultSet),
        inferStage st' s' = .ok rs' → ∀ m', rs'.max_size = some m' →
        rs'.min_size ≤ m' :=
    fun s' hlt => ih s'.srcDepth hlt s' rfl
  intro s hd st rs h m hm
  cases s with
  | collection db c =>
    simp only [inferStage] at h
    injection h with h
    subst h
    exact Option.noConfusion hm
  | array elems alias_ =>
    simp only [inferStage] at h
    obtain ⟨schemas, hs, hok⟩ := exceptBindInvOk h
    injection hok with hok
    subst hok
    exact le_of_eq (Option.some.inj hm)
  | project source expression =>
    have hdl : source.srcDepth < n := by
      simp only [Stage.srcDepth] at hd; omega
    simp only [inferStage] at h
    obtain ⟨rs', hsrc, h2⟩ := exceptBindInvOk h
    obtain ⟨env, henv, hok⟩ := exceptBindInvOk h2
    injection hok with hok
    subst hok
    exact IH source hdl st rs' hsrc m hm
  | filter source condition =>
    simp only [inferStage] at h
    obtain ⟨rs', hsrc, h2⟩ := exceptBindInvOk h
    obtain ⟨cs, hcs, hok⟩ := exceptBindInvOk h2
    split at hok
    · exact Except.noConfusion hok
    · injection hok with hok
      subst hok
      exact Nat.zero_le m
  | sort source specs =>
    have hdl : source.srcDepth < n := by
      simp only [Stage.srcDepth] at hd; omega
    simp only [inferStage] at h
    obtain ⟨rs', hsrc, h2⟩ := exceptBindInvOk h
    obtain ⟨u, hu, hok⟩ := exceptBindInvOk h2
    injection hok with hok
    subst hok
    exact IH source hdl st rs' hsrc m hm
  | limit source k =>
    have hdl : source.srcDepth < n := by
      simp only [Stage.srcDepth] at hd; omega
    simp only [inferStage] at h
    obtain ⟨rs', hsrc, hok⟩ := exceptBindInvOk h
    injection hok with hok
    subst hok
    simp at hm ⊢
    cases hmax : rs'.max_size with
    | none =>
      rw [hmax] at hm
      simp at hm
      omega
    | some m' =>
      rw [hmax] at hm
      simp at hm
      have h5 := IH source hdl st rs' hsrc m' hmax
      omega
  | offset source k =>
    have hdl : source.srcDepth < n := by
      simp only [Stage.srcDepth] at hd; omega
    simp only [inferStage] at h
    obtain ⟨rs', hsrc, hok⟩ := exceptBindInvOk h
    injection hok with hok
    subst hok
    simp at hm ⊢
    obtain ⟨m', hmax, rfl⟩ := hm
    have h5 := IH source hdl st rs' hsrc m' hmax
    omega
  | join join_type left right condition =>
    have hdl : left.srcDepth < n := by
      simp only [Stage.srcDepth] at hd; omega
    have hdr : right.srcDepth < n := by
      simp only [Stage.srcDepth] at hd; omega
    cases condition with
    | some c =>
      simp only [inferStage] at h
      obtain ⟨lrs, hl, h2⟩ := exceptBindInvOk h
      obtain ⟨rrs, hr, h3⟩ := exceptBindInvOk h2
      obtain ⟨env, henv, h4⟩ := exceptBindInvOk h3
      obtain ⟨cs, hcs, hok⟩ := exceptBindInvOk h4
      split at hok
      · exact Except.noConfusion hok
      · injection hok with hok
        subst hok
        cases join_type with
        | inner => exact Nat.zero_le m
        | left =>
          cases ha : lrs.max_size with
          | none => rw [ha] at hm; simp at hm
          | some a =>
            cases hb : rrs.max_size with
            | none => rw [ha, hb] at hm; simp at hm
            | some b =>
              rw [ha, hb] at hm
              simp at hm
              have h5 := IH left hdl st lrs hl a ha
              have h6 := IH right hdr st rrs hr b hb
              exact le_trans (Nat.mul_le_mul h5 h6) (le_of_eq hm)
    | none =>
      simp only [inferStage] at h
      obtain ⟨lrs, hl, h2⟩ := exceptBindInvOk h
      obtain ⟨rrs, hr, h3⟩ := exceptBindInvOk h2
      obtain ⟨env, henv, hok⟩ := exceptBindInvOk h3
      injection hok with hok
      subst hok
      cases ha : lrs.max_size with
      | none => rw [ha] at hm; simp at hm
      | some a =>
        cases hb : rrs.max_size with
        | none => rw [ha, hb] at hm; simp at hm
        | some b =>
          rw [ha, hb] at hm
          simp at hm
          have h5 := IH left hdl st lrs hl a ha
          have h6 := IH right hdr st rrs hr b hb
          exact le_trans (Nat.mul_le_mul h5 h6) (le_of_eq hm)
  | group source keys aggregations =>
    simp only [inferStage] at h
    exact Except.noConfusion h
  | set operation left right =>
    simp only [inferStage] at h
    exact Except.noConfusion h

/-- C8 helper in direct form. -/
theorem minSizeLeMaxSize (s : Stage) (st : SchemaInferenceState)
    (rs : ResultSet) (h : inferStage st s = .ok rs) (m : Nat)
    (hm : rs.max_size = some m) : rs.min_size ≤ m :=
  minSizeLeMaxSizeAux s.srcDepth s rfl st rs h m hm

end Ir

/-- **C7.** For every source stage with inferred result-set sizes
`(min_size, max_size)`: `Limit n` yields `min_size = min(source min_size, n)`
and `max_size = min(source max_size, n)` (an absent source `max_size` is
treated as unbounded, so the result is `n`), and `Offset n` decreases both
sizes by `n` with saturating subtraction (an absent `max_size` stays
absent). -/
theorem limit_offset_result_sizes
    (st : Ir.SchemaInferenceState) (src : Ir.Stage) (n : Nat)
    (rs : Ir.ResultSet) (h : Ir.inferStage st src = .ok rs) :
    Ir.inferStage st (.limit src n)
      = .ok { schema_env := rs.schema_env,
              min_size := min rs.min_size n,
              max_size := some (match rs.max_size with
                | some m => min m n
                | none => n) } ∧
    Ir.inferStage st (.offset src n)
      = .ok { schema_env := rs.schema_env,
              min_size := rs.min_size - n,
              max_size := rs.max_size.map (fun m => m - n) } := by
  constructor
  · cases hmax : rs.max_size <;> simp [Ir.inferStage, h, hmax]
  · simp [Ir.inferStage, h]

/-- Witness for C7: `Limit 20` and `Offset 20` over a collection whose
inferred sizes are `(0, unbounded)` yield `(0, some 20)` and `(0, none)`
respectively (ir/test.rs `limit_collection_datasource`,
`offset_collection_datasource`). -/
theorem limit_offset_result_sizes_witness :
    Ir.inferStage ⟨[], [], 0⟩ (.limit (.collection "test" "foo") 20)
      = .ok ⟨[(⟨.named "foo", 0⟩, ANY_DOCUMENT)], 0, some 20⟩ ∧
    Ir.inferStage ⟨[], [], 0⟩ (.offset (.collection "test" "foo") 20)
      = .ok ⟨[(⟨.named "foo", 0⟩, ANY_DOCUMENT)], 0, none⟩ := by
  have h := limit_offset_result_sizes ⟨[], [], 0⟩ (.collection "test" "foo") 20
    ⟨[(⟨.named "foo", 0⟩, ANY_DOCUMENT)], 0, none⟩ rfl
  exact ⟨h.1, h.2⟩

/-- **C8.** For every IR stage on which schema inference succeeds, the
inferred result set has `min_size ≤ max_size` whenever `max_size` is known,
and for a `Limit n` stage the inferred `max_size` is known and at most
`n`. -/
theorem result_set_size_invariant
    (st : Ir.SchemaInferenceState) (s : Ir.Stage) (rs : Ir.ResultSet)
    (h : Ir.inferStage st s = .ok rs) :
    (∀ m, rs.max_size = some m → rs.min_size ≤ m) ∧
    (∀ src n, s = Ir.Stage.limit src n →
      ∃ m, rs.max_size = some m ∧ m ≤ n) := by
  refine ⟨fun m hm => Ir.minSizeLeMaxSize s st rs h m hm, ?_⟩
  rintro src n rfl
  simp only [Ir.inferStage] at h
  obtain ⟨rs', hsrc, hok⟩ := exceptBindInvOk h
  injection hok with hok
  subst hok
  cases hmax : rs'.max_size with
  | none => exact ⟨n, by simp [hmax], le_refl n⟩
  | some m' => exact ⟨min m' n, by simp [hmax], Nat.min_le_right m' n⟩

/-- Witness for C8 at `Limit 20` over a collection: the inferred sizes are
`(0, some 20)`, and indeed `0 ≤ 20` and the max bound `20 ≤ 20` hold. -/
theorem result_set_size_invariant_witness :
    (0 : Nat) ≤ 20 ∧ ∃ m, (some 20 : Option Nat) = some m ∧ m ≤ 20 := by
  have h := result_set_size_invariant ⟨[], [], 0⟩
    (.limit (.collection "test" "foo") 20)
    ⟨[(⟨.named "foo", 0⟩, ANY_DOCUMENT)], 0, some 20⟩ rfl
  exact ⟨h.1 20 rfl, h.2 (.collection "test" "foo") 20 rfl⟩

/-- **C1** (counterexample to the claim as stated). For the degree-1
subquery `[{a: 5}]` with output field `a` (ir/test.rs
`subquery_expression_cardinality_must_be_one`), schema inference returns
the bare field schema `AnyOf(Integer)` — not `AnyOf(schema, Missing)` for
any schema: the `Missing` branch is added only when the subquery's
`min_size` is 0, and here `min_size = 1`. -/
theorem subquery_expression_no_missing_counterexample :
    Ir.inferExprSchema ⟨[], [], 0⟩
      (.subqueryExpression (.fieldAccess (.reference ⟨.named "foo", 1⟩) "a")
        (.array [.document [("a", .literal (.integer 5))]] "foo"))
      = .ok (.anyOf [.atomic .integer]) ∧
    ∀ s : Schema,
      (Except.ok (Schema.anyOf [.atomic .integer]) : Except Ir.SchemaError Schema)
        ≠ .ok (.anyOf [s, .missing]) := by
  constructor
  · simp [Ir.inferExprSchema, Ir.inferStage, Ir.inferArrayElemSchemas,
      Ir.inferDocFieldSchemas, Ir.inferExprSchemaList, Ir.inferBindingSchemas,
      Schema.mustBeDocument, allMustBeDocument, Schema.containsField,
      containsFieldList, combineAnyOfSat, satPair, Ir.fieldSchemaOf,
      Ir.fieldSchemaOfList, SchemaEnvironment.find, SchemaEnvironment.containsKey,
      SchemaEnvironment.merge, Schema.isMissingLike, Schema.mayBeBooleanOrNullish,
      Ir.SchemaInferenceState.subqueryState, Ir.catalogLookup, ANY_DOCUMENT]
  · intro s h
    simp at h

/-- **C1** (amended). For a `SubqueryExpression` whose subquery infers to a
result set `rs` and whose output expression infers (in the environment
extended with `rs.schema_env`) to schema `s`: inference fails with
`InvalidSubqueryCardinality` when `rs.max_size` is absent or exceeds 1;
otherwise it succeeds, returning `AnyOf(s, Missing)` when `rs.min_size = 0`
(the result set may be empty) and the bare `s` when `rs.min_size > 0`. -/
theorem subquery_expression_schema_characterization
    (st : Ir.SchemaInferenceState) (output : Ir.Expression) (subq : Ir.Stage)
    (rs : Ir.ResultSet) (s : Schema)
    (hrs : Ir.inferStage st.subqueryState subq = .ok rs)
    (hs : Ir.inferExprSchema { st with env := rs.schema_env ++ st.env } output
      = .ok s) :
    (rs.max_size = none →
      Ir.inferExprSchema st (.subqueryExpression output subq)
        = .error .invalidSubqueryCardinality) ∧
    (∀ m, rs.max_size = some m → 1 < m →
      Ir.inferExprSchema st (.subqueryExpression output subq)
        = .error .invalidSubqueryCardinality) ∧
    (∀ m, rs.max_size = some m → m ≤ 1 →
      Ir.inferExprSchema st (.subqueryExpression output subq)
        = .ok (if rs.min_size = 0 then .anyOf [s, .missing] else s)) := by
  refine ⟨fun hnone => ?_, fun m hm h1 => ?_, fun m hm h1 => ?_⟩ <;>
    simp only [Ir.inferExprSchema, hrs, exceptBindOk, hs]
  · simp [hnone]
  · simp [hm, h1]
  · simp only [hm]
    rw [if_neg (by omega)]

/-- Witness for the amended C1: the empty-array subquery (`min_size = 0`,
`max_size = 0`) wraps the output schema with `Missing`
(ir/test.rs `uncorrelated_subquery_cardinality_is_zero`). -/
theorem subquery_expression_schema_characterization_witness :
    Ir.inferExprSchema ⟨[], [], 0⟩
      (.subqueryExpression (.reference ⟨.named "foo", 1⟩) (.array [] "foo"))
      = .ok (.anyOf [.anyOf [], .missing]) := by
  have h := (subquery_expression_schema_characterization ⟨[], [], 0⟩
      (.reference ⟨.named "foo", 1⟩) (.array [] "foo")
      ⟨[(⟨.named "foo", 1⟩, .anyOf [])], 0, some 0⟩ (.anyOf [])
      rfl rfl).2.2 0 rfl (by decide)
  simpa using h


/-- **C9** (counterexample to the claim as stated). The sort key
`FieldAccess(Reference(foo), "a.b")` is a `FieldAccess` whose code
generation does not produce a single string reference (the field name
contains a dot), yet codegen of the Sort stage fails with
`DotsOrDollarsInFieldName` — the inner codegen error is propagated — and
not with `InvalidSortKey` as the claim requires. -/
theorem codegen_sort_error_counterexample :
    Mql.codegenStage ⟨[]⟩
      (.sort (.collection "db" "foo")
        [.asc (.fieldAccess (.reference ⟨.named "foo", 0⟩) "a.b")])
      = .error .dotsOrDollarsInFieldName ∧
    Mql.Error.dotsOrDollarsInFieldName ≠ Mql.Error.invalidSortKey := by
  constructor
  · simp [Mql.codegenStage, Mql.codegenSort, Mql.codegenSortSpecList,
      Mql.codegenSortSpec, Mql.codegenExpression, Mql.isSortKeyShape,
      Mql.MqlCodeGenerator.withMergedMappings, Mql.MappingRegistry.mergeWith,
      Mql.MappingRegistry.get]
  · decide

/-- **C9** (amended). Per sort specification: a key that is neither a
`Reference` nor a `FieldAccess` yields `InvalidSortKey`; errors of the
key's own code generation are propagated as-is; a key generating a
non-string BSON value yields `InvalidSortKey`; a key generating the string
`s` succeeds with the pair `(s minus its leading $, 1)` for `Asc` and
`(…, -1)` for `Dsc`.  The Sort stage itself appends a single $sort stage
built from the collected pairs to the source's pipeline, generating keys
under the source's mapping registry merged into the current one. -/
theorem codegen_sort_characterization
    (g : Mql.MqlCodeGenerator) (e : Ir.Expression) :
    (¬ Mql.isSortKeyShape e = true →
       Mql.codegenSortSpec g (.asc e) = .error .invalidSortKey ∧
       Mql.codegenSortSpec g (.dsc e) = .error .invalidSortKey) ∧
    (∀ err, Mql.isSortKeyShape e = true →
       Mql.codegenExpression g e = .error err →
       Mql.codegenSortSpec g (.asc e) = .error err ∧
       Mql.codegenSortSpec g (.dsc e) = .error err) ∧
    (∀ s, Mql.isSortKeyShape e = true →
       Mql.codegenExpression g e = .ok (.string s) →
       Mql.codegenSortSpec g (.asc e) = .ok (s.drop 1, .int32 1) ∧
       Mql.codegenSortSpec g (.dsc e) = .ok (s.drop 1, .int32 (-1))) ∧
    (∀ b, Mql.isSortKeyShape e = true →
       Mql.codegenExpression g e = .ok b → (∀ s, b ≠ .string s) →
       Mql.codegenSortSpec g (.asc e) = .error .invalidSortKey ∧
       Mql.codegenSortSpec g (.dsc e) = .error .invalidSortKey) ∧
    (∀ (src : Ir.Stage) (specs : List Ir.SortSpecification)
        (t : Mql.MqlTranslation) (kvs : List (String × Mql.Bson)),
       Mql.codegenStage g src = .ok t →
       Mql.codegenSortSpecList (g.withMergedMappings t.mapping_registry) specs
         = .ok kvs →
       Mql.codegenStage g (.sort src specs)
         = .ok (t.withAdditionalStage
             (.document [("$sort", .document kvs)]))) := by
  refine ⟨fun hsh => ?_, fun err hsh hc => ?_, fun s hsh hc => ?_,
    fun b hsh hc hns => ?_, fun src specs t kvs hsrc hspecs => ?_⟩
  · constructor <;> simp [Mql.codegenSortSpec, hsh]
  · constructor <;> simp [Mql.codegenSortSpec, hsh, hc]
  · constructor <;> simp [Mql.codegenSortSpec, hsh, hc]
  · constructor <;>
      (cases b <;> first
        | exact absurd rfl (hns _)
        | simp [Mql.codegenSortSpec, hsh, hc])
  · simp only [Mql.codegenStage, Mql.codegenSort, hsrc, exceptBindOk, hspecs,
      exceptPureEq]

/-- Witness for the amended C9: sorting by `Reference(foo)` under a
registry mapping `foo` to the physical name `foo` emits the key `"foo"`
(the `$` of `"$foo"` stripped) with direction `1`/`-1`. -/
theorem codegen_sort_characterization_witness :
    Mql.codegenSortSpec ⟨[(⟨.named "foo", 0⟩, "foo")]⟩
      (.asc (.reference ⟨.named "foo", 0⟩)) = .ok ("foo", .int32 1) ∧
    Mql.codegenSortSpec ⟨[(⟨.named "foo", 0⟩, "foo")]⟩
      (.dsc (.reference ⟨.named "foo", 0⟩)) = .ok ("foo", .int32 (-1)) := by
  have h := (codegen_sort_characterization ⟨[(⟨.named "foo", 0⟩, "foo")]⟩
      (.reference ⟨.named "foo", 0⟩)).2.2.1 "$foo" rfl (by
        simp [Mql.codegenExpression, Mql.MappingRegistry.get])
  simpa using h


/-- **C6.** Join lowering: writing `left_src`/`right_src` for the
algebrized operands and `cond'` for the algebrized optional condition, a
LEFT or RIGHT join without a condition fails with `NoOuterJoinCondition`;
a LEFT join with a condition becomes `Join(Left, left_src, right_src)`;
a RIGHT join with a condition becomes `Join(Left, right_src, left_src)` —
operands swapped, condition preserved; CROSS and INNER joins become
`Join(Inner, left_src, right_src)` with the optional condition in original
order. -/
theorem join_datasource_lowering
    (a : Alg.Algebrizer) (left right : Ast.Datasource)
    (cond : Option Ast.Expression) (left_src right_src : Ir.Stage)
    (lrs rrs : Ir.ResultSet) (ja ja2 : Alg.Algebrizer)
    (cond' : Option Ir.Expression)
    (hL : Alg.algebrizeDatasource a left = .ok left_src)
    (hR : Alg.algebrizeDatasource a right = .ok right_src)
    (hLrs : a.checkStage left_src = .ok lrs)
    (hRrs : a.checkStage right_src = .ok rrs)
    (hja : a.withMergedMappings lrs.schema_env = .ok ja)
    (hja2 : ja.withMergedMappings rrs.schema_env = .ok ja2)
    (hcond : Alg.algebrizeOptionalExpr ja2 cond = .ok cond') :
    (cond' = none →
       Alg.algebrizeDatasource a (.join .left left right cond)
         = .error .noOuterJoinCondition ∧
       Alg.algebrizeDatasource a (.join .right left right cond)
         = .error .noOuterJoinCondition) ∧
    (cond'.isSome = true →
       Alg.algebrizeDatasource a (.join .left left right cond)
         = .ok (.join .left left_src right_src cond') ∧
       Alg.algebrizeDatasource a (.join .right left right cond)
         = .ok (.join .left right_src left_src cond')) ∧
    Alg.algebrizeDatasource a (.join .cross left right cond)
      = .ok (.join .inner left_src right_src cond') ∧
    Alg.algebrizeDatasource a (.join .inner left right cond)
      = .ok (.join .inner left_src right_src cond') := by
  refine ⟨fun hnone => ?_, fun hsome => ?_, ?_, ?_⟩ <;>
    try subst hnone
  · constructor <;>
      simp [Alg.algebrizeDatasource, hL, hR, hLrs, hRrs, hja, hja2, hcond]
  · obtain ⟨v, rfl⟩ := Option.isSome_iff_exists.mp hsome
    constructor <;>
      simp [Alg.algebrizeDatasource, hL, hR, hLrs, hRrs, hja, hja2, hcond]
  · simp [Alg.algebrizeDatasource, hL, hR, hLrs, hRrs, hja, hja2, hcond]
  · simp [Alg.algebrizeDatasource, hL, hR, hLrs, hRrs, hja, hja2, hcond]

/-- Witness for C6: with two empty array datasources `foo` and `bar`, a
RIGHT join with a literal TRUE condition lowers to a Left join with the
operands swapped, and a LEFT join without a condition fails with
`NoOuterJoinCondition`. -/
theorem join_datasource_lowering_witness :
    Alg.algebrizeDatasource ⟨"test", [], [], 0⟩
      (.join .right (.array [] "foo") (.array [] "bar")
        (some (.literal (.boolean true))))
      = .ok (.join .left (.array [] "bar") (.array [] "foo")
          (some (.literal (.boolean true)))) ∧
    Alg.algebrizeDatasource ⟨"test", [], [], 0⟩
      (.join .left (.array [] "foo") (.array [] "bar") none)
      = .error .noOuterJoinCondition := by
  constructor
  · exact ((join_datasource_lowering ⟨"test", [], [], 0⟩
      (.array [] "foo") (.array [] "bar")
      (some (.literal (.boolean true)))
      (.array [] "foo") (.array [] "bar") _ _ _ _
      (some (.literal (.boolean true)))
      rfl rfl rfl rfl rfl rfl rfl).2.1 rfl).2
  · exact ((join_datasource_lowering ⟨"test", [], [], 0⟩
      (.array [] "foo") (.array [] "bar") none
      (.array [] "foo") (.array [] "bar") _ _ _ _ none
      rfl rfl rfl rfl rfl rfl rfl).1 rfl).1


/-- **C5.** A SELECT query is algebrized by processing its clauses in
exactly the order FROM, WHERE, GROUP BY, HAVING, SELECT, ORDER BY, OFFSET,
LIMIT, each step receiving the stage produced by the previous step as its
source (first conjunct), and the first error encountered in that order
aborts the whole algebrization with that error (remaining conjuncts). -/
theorem select_query_clause_order
    (a : Alg.Algebrizer) (sc : Ast.SelectClause) (fc : Option Ast.Datasource)
    (wc : Option Ast.Expression) (gc : Option Ast.GroupByClause)
    (hc : Option Ast.Expression) (oc : Option Ast.OrderByClause)
    (lim off : Option Nat) :
    (∀ p1 p2 p3 p4 p5 p6 p7 p8,
       Alg.algebrizeFromClause a fc = .ok p1 →
       Alg.algebrizeFilterClause a wc p1 = .ok p2 →
       Alg.algebrizeGroupByClause a gc p2 = .ok p3 →
       Alg.algebrizeFilterClause a hc p3 = .ok p4 →
       Alg.algebrizeSelectClause a sc p4 = .ok p5 →
       Alg.algebrizeOrderByClause a oc p5 = .ok p6 →
       Alg.algebrizeOffsetClause a off p6 = .ok p7 →
       Alg.algebrizeLimitClause a lim p7 = .ok p8 →
       Alg.algebrizeSelectQuery a (.mk sc fc wc gc hc oc lim off)
         = .ok p8) ∧
    (∀ e, Alg.algebrizeFromClause a fc = .error e →
       Alg.algebrizeSelectQuery a (.mk sc fc wc gc hc oc lim off)
         = .error e) ∧
    (∀ p1 e,
       Alg.algebrizeFromClause a fc = .ok p1 →
       Alg.algebrizeFilterClause a wc p1 = .error e →
       Alg.algebrizeSelectQuery a (.mk sc fc wc gc hc oc lim off)
         = .error e) ∧
    (∀ p1 p2 e,
       Alg.algebrizeFromClause a fc = .ok p1 →
       Alg.algebrizeFilterClause a wc p1 = .ok p2 →
       Alg.algebrizeGroupByClause a gc p2 = .error e →
       Alg.algebrizeSelectQuery a (.mk sc fc wc gc hc oc lim off)
         = .error e) ∧
    (∀ p1 p2 p3 e,
       Alg.algebrizeFromClause a fc = .ok p1 →
       Alg.algebrizeFilterClause a wc p1 = .ok p2 →
       Alg.algebrizeGroupByClause a gc p2 = .ok p3 →
       Alg.algebrizeFilterClause a hc p3 = .error e →
       Alg.algebrizeSelectQuery a (.mk sc fc wc gc hc oc lim off)
         = .error e) ∧
    (∀ p1 p2 p3 p4 e,
       Alg.algebrizeFromClause a fc = .ok p1 →
       Alg.algebrizeFilterClause a wc p1 = .ok p2 →
       Alg.algebrizeGroupByClause a gc p2 = .ok p3 →
       Alg.algebrizeFilterClause a hc p3 = .ok p4 →
       Alg.algebrizeSelectClause a sc p4 = .error e →
       Alg.algebrizeSelectQuery a (.mk sc fc wc gc hc oc lim off)
         = .error e) ∧
    (∀ p1 p2 p3 p4 p5 e,
       Alg.algebrizeFromClause a fc = .ok p1 →
       Alg.algebrizeFilterClause a wc p1 = .ok p2 →
       Alg.algebrizeGroupByClause a gc p2 = .ok p3 →
       Alg.algebrizeFilterClause a hc p3 = .ok p4 →
       Alg.algebrizeSelectClause a sc p4 = .ok p5 →
       Alg.algebrizeOrderByClause a oc p5 = .error e →
       Alg.algebrizeSelectQuery a (.mk sc fc wc gc hc oc lim off)
         = .error e) ∧
    (∀ p1 p2 p3 p4 p5 p6 e,
       Alg.algebrizeFromClause a fc = .ok p1 →
       Alg.algebrizeFilterClause a wc p1 = .ok p2 →
       Alg.algebrizeGroupByClause a gc p2 = .ok p3 →
       Alg.algebrizeFilterClause a hc p3 = .ok p4 →
       Alg.algebrizeSelectClause a sc p4 = .ok p5 →
       Alg.algebrizeOrderByClause a oc p5 = .ok p6 →
       Alg.algebrizeOffsetClause a off p6 = .error e →
       Alg.algebrizeSelectQuery a (.mk sc fc wc gc hc oc lim off)
         = .error e) ∧
    (∀ p1 p2 p3 p4 p5 p6 p7 e,
       Alg.algebrizeFromClause a fc = .ok p1 →
       Alg.algebrizeFilterClause a wc p1 = .ok p2 →
       Alg.algebrizeGroupByClause a gc p2 = .ok p3 →
       Alg.algebrizeFilterClause a hc p3 = .ok p4 →
       Alg.algebrizeSelectClause a sc p4 = .ok p5 →
       Alg.algebrizeOrderByClause a oc p5 = .ok p6 →
       Alg.algebrizeOffsetClause a off p6 = .ok p7 →
       Alg.algebrizeLimitClause a lim p7 = .error e →
       Alg.algebrizeSelectQuery a (.mk sc fc wc gc hc oc lim off)
         = .error e) := by
  refine ⟨fun p1 p2 p3 p4 p5 p6 p7 p8 h1 h2 h3 h4 h5 h6 h7 h8 => ?_,
    fun e h1 => ?_,
    fun p1 e h1 h2 => ?_,
    fun p1 p2 e h1 h2 h3 => ?_,
    fun p1 p2 p3 e h1 h2 h3 h4 => ?_,
    fun p1 p2 p3 p4 e h1 h2 h3 h4 h5 => ?_,
    fun p1 p2 p3 p4 p5 e h1 h2 h3 h4 h5 h6 => ?_,
    fun p1 p2 p3 p4 p5 p6 e h1 h2 h3 h4 h5 h6 h7 => ?_,
    fun p1 p2 p3 p4 p5 p6 p7 e h1 h2 h3 h4 h5 h6 h7 h8 => ?_⟩
  · simp only [Alg.algebrizeSelectQuery, h1, exceptBindOk, h2, h3, h4, h5,
      h6, h7, h8, exceptPureEq]
  · simp only [Alg.algebrizeSelectQuery, h1, exceptBindError]
  · simp only [Alg.algebrizeSelectQuery, h1, exceptBindOk, h2,
      exceptBindError]
  · simp only [Alg.algebrizeSelectQuery, h1, exceptBindOk, h2, h3,
      exceptBindError]
  · simp only [Alg.algebrizeSelectQuery, h1, exceptBindOk, h2, h3, h4,
      exceptBindError]
  · simp only [Alg.algebrizeSelectQuery, h1, exceptBindOk, h2, h3, h4, h5,
      exceptBindError]
  · simp only [Alg.algebrizeSelectQuery, h1, exceptBindOk, h2, h3, h4, h5,
      h6, exceptBindError]
  · simp only [Alg.algebrizeSelectQuery, h1, exceptBindOk, h2, h3, h4, h5,
      h6, h7, exceptBindError]
  · simp only [Alg.algebrizeSelectQuery, h1, exceptBindOk, h2, h3, h4, h5,
      h6, h7, h8, exceptBindError]

/-- Witness for C5: `SELECT * FROM foo AS f` (all other clauses absent)
algebrizes through the full clause chain to the aliasing projection over
the collection. -/
theorem select_query_clause_order_witness :
    Alg.algebrizeSelectQuery ⟨"db", [], [], 0⟩
      (.mk (.mk .all (.standard [.star]))
        (some (.collection none "foo" (some "f")))
        none none none none none none)
      = .ok (.project (.collection "db" "foo")
          [(⟨.named "f", 0⟩, .reference ⟨.named "foo", 0⟩)]) := by
  exact (select_query_clause_order ⟨"db", [], [], 0⟩
      (.mk .all (.standard [.star])) (some (.collection none "foo" (some "f")))
      none none none none none none).1
    _ _ _ _ _ _ _ _ rfl rfl rfl rfl rfl rfl rfl rfl


/-- The fold of one scope iteration of
`algebrize_unqualified_identifier_by_scope` computes the last `Must` key
(defaulting to the accumulator key) and the `May`/`Must` counts of the
current scope. -/
theorem scopeFold_spec (i : String) (scope : Nat) :
    ∀ (env : SchemaEnvironment) (acc : Key × Nat × Nat),
      env.foldl (Alg.scopeFoldStep i scope) acc
        = ((mustKeysAt i scope env).getLastD acc.1,
           acc.2.1 + maysCountAt i scope env,
           acc.2.2 + (mustKeysAt i scope env).length)
  | [], acc => by simp [mustKeysAt, maysCountAt]
  | kv :: rest, acc => by
    have IH := scopeFold_spec i scope rest
    by_cases hsc : kv.1.scope = scope
    · rcases hcf : kv.2.containsField i with _ | _ | _
      case pos.must =>
        have h1 : mustKeysAt i scope (kv :: rest)
            = kv.1 :: mustKeysAt i scope rest := by
          simp [mustKeysAt, hsc, hcf]
        have h2 : maysCountAt i scope (kv :: rest)
            = maysCountAt i scope rest := by
          simp [maysCountAt, hsc, hcf]
        have h3 : Alg.scopeFoldStep i scope acc kv
            = (kv.1, acc.2.1, acc.2.2 + 1) := by
          simp [Alg.scopeFoldStep, hsc, hcf]
        rw [List.foldl_cons, h3, IH, h1, h2, List.getLastD_cons]
        simp [Prod.mk.injEq]
        omega
      case pos.may =>
        have h1 : mustKeysAt i scope (kv :: rest)
            = mustKeysAt i scope rest := by
          simp [mustKeysAt, hsc, hcf]
        have h2 : maysCountAt i scope (kv :: rest)
            = maysCountAt i scope rest + 1 := by
          simp [maysCountAt, hsc, hcf]
        have h3 : Alg.scopeFoldStep i scope acc kv
            = (acc.1, acc.2.1 + 1, acc.2.2) := by
          simp [Alg.scopeFoldStep, hsc, hcf]
        rw [List.foldl_cons, h3, IH, h1, h2]
        simp [Prod.mk.injEq]
        omega
      case pos.not =>
        have h1 : mustKeysAt i scope (kv :: rest)
            = mustKeysAt i scope rest := by
          simp [mustKeysAt, hsc, hcf]
        have h2 : maysCountAt i scope (kv :: rest)
            = maysCountAt i scope rest := by
          simp [maysCountAt, hsc, hcf]
        have h3 : Alg.scopeFoldStep i scope acc kv = acc := by
          simp [Alg.scopeFoldStep, hsc, hcf]
        rw [List.foldl_cons, h3, IH, h1, h2]
    · have h1 : mustKeysAt i scope (kv :: rest)
          = mustKeysAt i scope rest := by
        simp [mustKeysAt, hsc]
      have h2 : maysCountAt i scope (kv :: rest)
          = maysCountAt i scope rest := by
        simp [maysCountAt, hsc]
      have h3 : Alg.scopeFoldStep i scope acc kv = acc := by
        simp [Alg.scopeFoldStep, hsc]
      rw [List.foldl_cons, h3, IH, h1, h2]

/-- One iteration of the scope loop, characterized by the `Must` keys and
the `May` count of the scope. -/
theorem scopeDecision_spec (a : Alg.Algebrizer) (i : String) (s : Nat) :
    Alg.scopeDecision a i s
      = (if (mustKeysAt i s a.schema_env).length > 1
            ∨ maysCountAt i s a.schema_env > 0
         then some (.error (.ambiguousField i))
         else if (mustKeysAt i s a.schema_env).length = 1
         then some (.ok (.fieldAccess
             (.reference ((mustKeysAt i s a.schema_env).getLastD (Key.bot s)))
             i))
         else none) := by
  simp only [Alg.scopeDecision, scopeFold_spec, Nat.zero_add]

/-- Scopes with no `Must` and no `May` candidate are skipped by the
scope-by-scope loop. -/
theorem byScope_skip (a : Alg.Algebrizer) (i : String) :
    ∀ (top s : Nat), s ≤ top →
      (∀ s', s < s' → s' ≤ top →
        mustKeysAt i s' a.schema_env = [] ∧ maysCountAt i s' a.schema_env = 0) →
      Alg.algebrizeUnqualifiedIdentifierByScope a i top
        = Alg.algebrizeUnqualifiedIdentifierByScope a i s
  | 0, s, hs, _ => by
    have hz : s = 0 := by omega
    subst hz
    rfl
  | top + 1, s, hs, hno => by
    by_cases heq : s = top + 1
    · subst heq
      rfl
    · have hdec : Alg.scopeDecision a i (top + 1) = none := by
        have h := hno (top + 1) (by omega) (le_refl _)
        rw [scopeDecision_spec]
        simp [h.1, h.2]
      have hrec := byScope_skip a i top s (by omega)
        (fun s' h1 h2 => hno s' h1 (by omega))
      simp only [Alg.algebrizeUnqualifiedIdentifierByScope, hdec,
        Option.getD_none]
      exact hrec

/-- **C2.** Resolution of an unqualified identifier `i` against the schema
environment: with no `Must`/`May` candidate in any scope it fails with
`FieldNotFound(i)`; with exactly one candidate over all scopes it resolves
to `FieldAccess(Reference(that key), i)`; otherwise scopes are scanned
from the current scope outward, and in the first scope holding any
candidate the loop errs with `AmbiguousField(i)` when the scope has more
than one `Must` or at least one `May`, and resolves to the scope's single
`Must` datasource otherwise. -/
theorem unqualified_identifier_resolution (a : Alg.Algebrizer) (i : String) :
    ((a.schema_env.filter fun kv =>
        let sat := kv.2.containsField i
        sat = .may ∨ sat = .must) = [] →
      Alg.algebrizeUnqualifiedIdentifier a i = .error (.fieldNotFound i)) ∧
    (∀ kv, (a.schema_env.filter fun kv =>
        let sat := kv.2.containsField i
        sat = .may ∨ sat = .must) = [kv] →
      Alg.algebrizeUnqualifiedIdentifier a i
        = .ok (.fieldAccess (.reference kv.1) i)) ∧
    (∀ kv1 kv2 kvrest, (a.schema_env.filter fun kv =>
        let sat := kv.2.containsField i
        sat = .may ∨ sat = .must) = kv1 :: kv2 :: kvrest →
      ∀ s, s ≤ a.scope_level →
      (∀ s', s < s' → s' ≤ a.scope_level →
        mustKeysAt i s' a.schema_env = [] ∧
        maysCountAt i s' a.schema_env = 0) →
      (((mustKeysAt i s a.schema_env).length > 1
          ∨ maysCountAt i s a.schema_env > 0 →
        Alg.algebrizeUnqualifiedIdentifier a i
          = .error (.ambiguousField i)) ∧
       (∀ k, mustKeysAt i s a.schema_env = [k] →
        maysCountAt i s a.schema_env = 0 →
        Alg.algebrizeUnqualifiedIdentifier a i
          = .ok (.fieldAccess (.reference k) i)))) := by
  refine ⟨fun h => ?_, fun kv h => ?_, fun kv1 kv2 kvrest h s hs hno => ?_⟩
  · simp only [Alg.algebrizeUnqualifiedIdentifier]
    rw [h]
  · simp only [Alg.algebrizeUnqualifiedIdentifier]
    rw [h]
  · have hby : Alg.algebrizeUnqualifiedIdentifier a i
        = Alg.algebrizeUnqualifiedIdentifierByScope a i s := by
      simp only [Alg.algebrizeUnqualifiedIdentifier]
      rw [h]
      exact byScope_skip a i a.scope_level s hs hno
    refine ⟨fun hamb => ?_, fun k hk hmay => ?_⟩
    · have hdec : Alg.scopeDecision a i s
          = some (.error (.ambiguousField i)) := by
        rw [scopeDecision_spec, if_pos hamb]
      rw [hby]
      cases s with
      | zero =>
        simp [Alg.algebrizeUnqualifiedIdentifierByScope, hdec]
      | succ n =>
        simp [Alg.algebrizeUnqualifiedIdentifierByScope, hdec]
    · have hdec : Alg.scopeDecision a i s
          = some (.ok (.fieldAccess (.reference k) i)) := by
        rw [scopeDecision_spec, hk, hmay]
        simp
      rw [hby]
      cases s with
      | zero =>
        simp [Alg.algebrizeUnqualifiedIdentifierByScope, hdec]
      | succ n =>
        simp [Alg.algebrizeUnqualifiedIdentifierByScope, hdec]

/-- Witness for C2: with `foo{a} Must` at scope 0 and `bar{a} Must` at
scope 1 (two candidates over all scopes), resolution from scope level 1
picks the single `Must` of scope 1, giving `bar.a`. -/
theorem unqualified_identifier_resolution_witness :
    Alg.algebrizeUnqualifiedIdentifier
      ⟨"db",
       [(⟨.named "foo", 0⟩, .document [("a", .atomic .integer)] ["a"] false),
        (⟨.named "bar", 1⟩, .document [("a", .atomic .integer)] ["a"] false)],
       [], 1⟩ "a"
      = .ok (.fieldAccess (.reference ⟨.named "bar", 1⟩) "a") := by
  exact ((unqualified_identifier_resolution
      ⟨"db",
       [(⟨.named "foo", 0⟩, .document [("a", .atomic .integer)] ["a"] false),
        (⟨.named "bar", 1⟩, .document [("a", .atomic .integer)] ["a"] false)],
       [], 1⟩ "a").2.2
    (⟨.named "foo", 0⟩, .document [("a", .atomic .integer)] ["a"] false)
    (⟨.named "bar", 1⟩, .document [("a", .atomic .integer)] ["a"] false)
    [] rfl 1 (le_refl 1) (fun s' h1 h2 => absurd (lt_of_lt_of_le h1 h2)
      (lt_irrefl 1))).2
    ⟨.named "bar", 1⟩ rfl rfl


namespace Air

mutual

/-- Subquery-free stages are returned unchanged by the limit-adder
pre-walk (with the flag unchanged). -/
theorem laStage_id (b : Bool) (s : Stage)
    (h : stageHasSubquery s = false) : laStage b s = (s, b) := by
  cases s with
  | collection db c => simp [laStage]
  | documents docs =>
    simp only [stageHasSubquery] at h
    simp [laStage, laExprList_id b docs h]
  | project src specs =>
    simp only [stageHasSubquery, Bool.or_eq_false_iff] at h
    simp [laStage, laStage_id b src h.1, laProjectItems_id b specs h.2]
  | replaceWith src e =>
    simp only [stageHasSubquery, Bool.or_eq_false_iff] at h
    simp [laStage, laStage_id b src h.1, laExpr_id b e h.2]
  | matchStage src e =>
    simp only [stageHasSubquery, Bool.or_eq_false_iff] at h
    simp [laStage, laStage_id b src h.1, laExpr_id b e h.2]
  | limit src n =>
    simp only [stageHasSubquery] at h
    simp [laStage, laStage_id b src h]
  | skip src n =>
    simp only [stageHasSubquery] at h
    simp [laStage, laStage_id b src h]
  | sort src specs =>
    simp only [stageHasSubquery] at h
    simp [laStage, laStage_id b src h]
  | unwind src p =>
    simp only [stageHasSubquery, Bool.or_eq_false_iff] at h
    simp [laStage, laStage_id b src h.1, laExpr_id b p h.2]
  | lookup src lv p as_v =>
    simp only [stageHasSubquery, Bool.or_eq_false_iff] at h
    simp [laStage, laStage_id b src h.1.1, laOptLetVars_id b lv h.1.2,
      laStage_id b p h.2]
  | group src keys aggs =>
    simp only [stageHasSubquery, Bool.or_eq_false_iff] at h
    simp [laStage, laStage_id b src h.1.1, laPairList_id b keys h.1.2,
      laPairList_id b aggs h.2]

/-- Subquery-free expressions are returned unchanged by the limit-adder
pre-walk. -/
theorem laExpr_id (b : Bool) (e : Expression)
    (h : exprHasSubquery e = false) : laExpr b e = (e, b) := by
  cases e with
  | literal l => simp [laExpr]
  | fieldRef s => simp [laExpr]
  | «variable» s => simp [laExpr]
  | document kvs =>
    simp only [exprHasSubquery] at h
    simp [laExpr, laPairList_id b kvs h]
  | array es =>
    simp only [exprHasSubquery] at h
    simp [laExpr, laExprList_id b es h]
  | mqlSemanticOperator op args =>
    simp only [exprHasSubquery] at h
    simp [laExpr, laExprList_id b args h]
  | sqlSemanticOperator op args =>
    simp only [exprHasSubquery] at h
    simp [laExpr, laExprList_id b args h]
  | letExpr vars inside =>
    simp only [exprHasSubquery, Bool.or_eq_false_iff] at h
    simp [laExpr, laLetVars_id b vars h.1, laExpr_id (laLetVars b vars).2 inside h.2,
      laExpr_id b inside h.2]
  | reduce input init_value inside =>
    simp only [exprHasSubquery, Bool.or_eq_false_iff] at h
    simp [laExpr, laExpr_id b input h.1.1, laExpr_id b init_value h.1.2,
      laExpr_id b inside h.2]
  | subquery s => simp [exprHasSubquery] at h
  | subqueryComparison sc => simp [exprHasSubquery] at h
  | subqueryExists se => simp [exprHasSubquery] at h

/-- Subquery-free expression lists are unchanged by the pre-walk. -/
theorem laExprList_id (b : Bool) (es : List Expression)
    (h : exprsHaveSubquery es = false) : laExprList b es = (es, b) := by
  cases es with
  | nil => simp [laExprList]
  | cons e rest =>
    simp only [exprsHaveSubquery, Bool.or_eq_false_iff] at h
    simp [laExprList, laExpr_id b e h.1, laExprList_id b rest h.2]

/-- Subquery-free keyed expression lists are unchanged by the pre-walk. -/
theorem laPairList_id (b : Bool) (kvs : List (String × Expression))
    (h : pairsHaveSubquery kvs = false) : laPairList b kvs = (kvs, b) := by
  cases kvs with
  | nil => simp [laPairList]
  | cons kv rest =>
    simp only [pairsHaveSubquery, Bool.or_eq_false_iff] at h
    simp [laPairList, laExpr_id b kv.2 h.1, laPairList_id b rest h.2]

/-- Subquery-free project-item lists are unchanged by the pre-walk. -/
theorem laProjectItems_id (b : Bool) (kvs : List (String × ProjectItem))
    (h : itemsHaveSubquery kvs = false) : laProjectItems b kvs = (kvs, b) := by
  cases kvs with
  | nil => simp [laProjectItems]
  | cons kv rest =>
    simp only [itemsHaveSubquery, Bool.or_eq_false_iff] at h
    simp [laProjectItems, laProjectItem_id b kv.2 h.1,
      laProjectItems_id b rest h.2]

/-- Subquery-free project items are unchanged by the pre-walk. -/
theorem laProjectItem_id (b : Bool) (item : ProjectItem)
    (h : itemHasSubquery item = false) : laProjectItem b item = (item, b) := by
  cases item with
  | inclusion => simp [laProjectItem]
  | exclusion => simp [laProjectItem]
  | assignment e =>
    simp only [itemHasSubquery] at h
    simp [laProjectItem, laExpr_id b e h]

/-- Subquery-free let-variable lists are unchanged by the pre-walk. -/
theorem laLetVars_id (b : Bool) (vars : List LetVariable)
    (h : letVarsHaveSubquery vars = false) : laLetVars b vars = (vars, b) := by
  cases vars with
  | nil => simp [laLetVars]
  | cons v rest =>
    cases v with
    | mk name e =>
      simp only [letVarsHaveSubquery, Bool.or_eq_false_iff] at h
      simp [laLetVars, laExpr_id b e h.1, laLetVars_id b rest h.2]

/-- Subquery-free optional let-variable lists are unchanged by the
pre-walk. -/
theorem laOptLetVars_id (b : Bool) (lv : Option (List LetVariable))
    (h : optLetVarsHaveSubquery lv = false) : laOptLetVars b lv = (lv, b) := by
  cases lv with
  | none => simp [laOptLetVars]
  | some vars =>
    simp only [optLetVarsHaveSubquery] at h
    simp [laOptLetVars, laLetVars_id b vars h]

end

end Air

/-- **C3** (counterexample to the claim as stated). The pre-walk does not
append `Limit(1)` to the pipeline of a plain Subquery expression whose
pipeline already ends with `Limit(1)`: the containing pipeline below is
returned completely unchanged, and the subquery's pipeline differs from
the `Limit(1)`-appended pipeline the claim requires. -/
theorem limit_adder_no_append_counterexample :
    Air.subqueryLimitAdderRun
      (.matchStage (.collection "db" "foo")
        (.subquery (.mk [] ["x"] (.limit (.collection "db" "bar") 1))))
      = .matchStage (.collection "db" "foo")
          (.subquery (.mk [] ["x"] (.limit (.collection "db" "bar") 1))) ∧
    (Air.Stage.limit (.collection "db" "bar") 1)
      ≠ .limit (.limit (.collection "db" "bar") 1) 1 := by
  constructor
  · simp [Air.subqueryLimitAdderRun, Air.laStage, Air.laExpr, Air.laSubquery,
      Air.laLetVars, Air.Stage.isLimitOne]
  · intro hcontra
    injection hcontra with h1 h2
    exact Air.Stage.noConfusion h1

/-- **C3** (amended). Under the limit-adder pre-walk: a plain Subquery
expression reached with the flag clear gets `Limit(1)` appended to its
(walked) pipeline exactly when that pipeline does not already end with
`Limit(1)`; a SubqueryExists gets the same treatment regardless of the
flag; a SubqueryComparison walks its argument with the flag set and —
when the flag survives the walk — leaves its inner subquery's pipeline
unmodified, resetting the flag to clear; and a subquery-free stage is
returned completely unchanged. -/
theorem limit_adder_characterization :
    (∀ (lb : List Air.LetVariable) (path : List String) (p : Air.Stage)
        (lb' : List Air.LetVariable) (p' : Air.Stage),
       Air.laLetVars false lb = (lb', false) →
       Air.laStage false p = (p', false) →
       p'.isLimitOne = false →
       Air.laSubquery false (.mk lb path p)
         = (.mk lb' path (.limit p' 1), false)) ∧
    (∀ (lb : List Air.LetVariable) (path : List String) (p : Air.Stage)
        (lb' : List Air.LetVariable) (p' : Air.Stage),
       Air.laLetVars false lb = (lb', false) →
       Air.laStage false p = (p', false) →
       p'.isLimitOne = true →
       Air.laSubquery false (.mk lb path p) = (.mk lb' path p', false)) ∧
    (∀ (b b1 b2 : Bool) (lb : List Air.LetVariable) (p : Air.Stage)
        (lb' : List Air.LetVariable) (p' : Air.Stage),
       Air.laLetVars b lb = (lb', b1) →
       Air.laStage b1 p = (p', b2) →
       p'.isLimitOne = false →
       Air.laSubqueryExists b (.mk lb p)
         = (.mk lb' (.limit p' 1), b2)) ∧
    (∀ (b b1 b2 : Bool) (lb : List Air.LetVariable) (p : Air.Stage)
        (lb' : List Air.LetVariable) (p' : Air.Stage),
       Air.laLetVars b lb = (lb', b1) →
       Air.laStage b1 p = (p', b2) →
       p'.isLimitOne = true →
       Air.laSubqueryExists b (.mk lb p) = (.mk lb' p', b2)) ∧
    (∀ (b : Bool) (op : Air.SubqueryComparisonOp)
        (md : Air.SubqueryModifier) (arg : Air.Expression)
        (lb : List Air.LetVariable) (path : List String) (p : Air.Stage)
        (arg' : Air.Expression) (lb' : List Air.LetVariable) (p' : Air.Stage),
       Air.laExpr true arg = (arg', true) →
       Air.laLetVars true lb = (lb', true) →
       Air.laStage true p = (p', true) →
       Air.laSubqueryComparison b (.mk op md arg (.mk lb path p))
         = (.mk op md arg' (.mk lb' path p'), false)) ∧
    (∀ (b : Bool) (s : Air.Stage), Air.stageHasSubquery s = false →
       Air.laStage b s = (s, b)) := by
  refine ⟨fun lb path p lb' p' h1 h2 hlim => ?_,
    fun lb path p lb' p' h1 h2 hlim => ?_,
    fun b b1 b2 lb p lb' p' h1 h2 hlim => ?_,
    fun b b1 b2 lb p lb' p' h1 h2 hlim => ?_,
    fun b op md arg lb path p arg' lb' p' h1 h2 h3 => ?_,
    fun b s h => Air.laStage_id b s h⟩
  · simp [Air.laSubquery, h1, h2, hlim]
  · simp [Air.laSubquery, h1, h2, hlim]
  · simp [Air.laSubqueryExists, h1, h2, hlim]
  · simp [Air.laSubqueryExists, h1, h2, hlim]
  · simp [Air.laSubqueryComparison, Air.laSubquery, h1, h2, h3]

/-- Witness for the amended C3: a Subquery over a bare collection (no
trailing `Limit(1)`) gets `Limit(1)` appended, and one already ending in
`Limit(1)` is left alone. -/
theorem limit_adder_characterization_witness :
    Air.laSubquery false (.mk [] ["x"] (.collection "db" "c"))
      = (.mk [] ["x"] (.limit (.collection "db" "c") 1), false) ∧
    Air.laSubquery false (.mk [] ["x"] (.limit (.collection "db" "c") 1))
      = (.mk [] ["x"] (.limit (.collection "db" "c") 1), false) := by
  constructor
  · exact limit_adder_characterization.1 [] ["x"] (.collection "db" "c")
      [] (.collection "db" "c") rfl rfl rfl
  · exact limit_adder_characterization.2.1 [] ["x"]
      (.limit (.collection "db" "c") 1) [] (.limit (.collection "db" "c") 1)
      rfl rfl rfl


namespace Air

/-- `dvStage` is the inlined walk (`dvWalkStage` from the reset state)
followed by the counter test and `Project` postprocessing, restoring the
saved visitor state. -/
theorem dvStage_unfold (vs : VState) (stage : Stage) :
    dvStage vs stage =
      ((let walked := dvWalkStage ⟨0, [], stage.getSource⟩ stage
        if walked.2.subquery_counter = 0 then walked.1
        else
          Stage.project ((walked.1).setSource walked.2.subquery_lookups)
            (exclusionSpecs walked.2.as_names
              (((walked.1).setSource walked.2.subquery_lookups).isGroup))),
       vs) := by
  cases stage <;> simp only [dvStage, dvWalkStage]

mutual

/-- Subquery-free stages are returned unchanged by the main desugarer
visitor (with the visitor state restored). -/
theorem dvStage_id (vs : VState) (s : Stage)
    (h : stageHasSubquery s = false) : dvStage vs s = (s, vs) := by
  rw [dvStage_unfold]
  cases s with
  | collection db c => simp [dvWalkStage]
  | documents docs =>
    simp only [stageHasSubquery] at h
    simp [dvWalkStage, dvExprList_id _ docs h]
  | project src specs =>
    simp only [stageHasSubquery, Bool.or_eq_false_iff] at h
    simp [dvWalkStage, dvStage_id _ src h.1, dvProjectItems_id _ specs h.2]
  | replaceWith src e =>
    simp only [stageHasSubquery, Bool.or_eq_false_iff] at h
    simp [dvWalkStage, dvStage_id _ src h.1, dvExpr_id _ e h.2]
  | matchStage src e =>
    simp only [stageHasSubquery, Bool.or_eq_false_iff] at h
    simp [dvWalkStage, dvStage_id _ src h.1, dvExpr_id _ e h.2]
  | limit src n =>
    simp only [stageHasSubquery] at h
    simp [dvWalkStage, dvStage_id _ src h]
  | skip src n =>
    simp only [stageHasSubquery] at h
    simp [dvWalkStage, dvStage_id _ src h]
  | sort src specs =>
    simp only [stageHasSubquery] at h
    simp [dvWalkStage, dvStage_id _ src h]
  | unwind src p =>
    simp only [stageHasSubquery, Bool.or_eq_false_iff] at h
    simp [dvWalkStage, dvStage_id _ src h.1, dvExpr_id _ p h.2]
  | lookup src lv p as_v =>
    simp only [stageHasSubquery, Bool.or_eq_false_iff] at h
    simp [dvWalkStage, dvStage_id _ src h.1.1, dvOptLetVars_id _ lv h.1.2,
      dvStage_id _ p h.2]
  | group src keys aggs =>
    simp only [stageHasSubquery, Bool.or_eq_false_iff] at h
    simp [dvWalkStage, dvStage_id _ src h.1.1, dvPairList_id _ keys h.1.2,
      dvPairList_id _ aggs h.2]

/-- Subquery-free expressions are returned unchanged by the main
desugarer visitor. -/
theorem dvExpr_id (vs : VState) (e : Expression)
    (h : exprHasSubquery e = false) : dvExpr vs e = (e, vs) := by
  cases e with
  | literal l => simp [dvExpr]
  | fieldRef s => simp [dvExpr]
  | «variable» s => simp [dvExpr]
  | document kvs =>
    simp only [exprHasSubquery] at h
    simp [dvExpr, dvPairList_id _ kvs h]
  | array es =>
    simp only [exprHasSubquery] at h
    simp [dvExpr, dvExprList_id _ es h]
  | mqlSemanticOperator op args =>
    simp only [exprHasSubquery] at h
    simp [dvExpr, dvExprList_id _ args h]
  | sqlSemanticOperator op args =>
    simp only [exprHasSubquery] at h
    simp [dvExpr, dvExprList_id _ args h]
  | letExpr vars inside =>
    simp only [exprHasSubquery, Bool.or_eq_false_iff] at h
    simp [dvExpr, dvLetVars_id _ vars h.1, dvExpr_id _ inside h.2]
  | reduce input init_value inside =>
    simp only [exprHasSubquery, Bool.or_eq_false_iff] at h
    simp [dvExpr, dvExpr_id _ input h.1.1, dvExpr_id _ init_value h.1.2,
      dvExpr_id _ inside h.2]
  | subquery s => simp [exprHasSubquery] at h
  | subqueryComparison sc => simp [exprHasSubquery] at h
  | subqueryExists se => simp [exprHasSubquery] at h

/-- Subquery-free expression lists are unchanged by the main visitor. -/
theorem dvExprList_id (vs : VState) (es : List Expression)
    (h : exprsHaveSubquery es = false) : dvExprList vs es = (es, vs) := by
  cases es with
  | nil => simp [dvExprList]
  | cons e rest =>
    simp only [exprsHaveSubquery, Bool.or_eq_false_iff] at h
    simp [dvExprList, dvExpr_id _ e h.1, dvExprList_id _ rest h.2]

/-- Subquery-free keyed expression lists are unchanged by the main
visitor. -/
theorem dvPairList_id (vs : VState) (kvs : List (String × Expression))
    (h : pairsHaveSubquery kvs = false) : dvPairList vs kvs = (kvs, vs) := by
  cases kvs with
  | nil => simp [dvPairList]
  | cons kv rest =>
    simp only [pairsHaveSubquery, Bool.or_eq_false_iff] at h
    simp [dvPairList, dvExpr_id _ kv.2 h.1, dvPairList_id _ rest h.2]

/-- Subquery-free project-item lists are unchanged by the main visitor. -/
theorem dvProjectItems_id (vs : VState) (kvs : List (String × ProjectItem))
    (h : itemsHaveSubquery kvs = false) :
    dvProjectItems vs kvs = (kvs, vs) := by
  cases kvs with
  | nil => simp [dvProjectItems]
  | cons kv rest =>
    simp only [itemsHaveSubquery, Bool.or_eq_false_iff] at h
    simp [dvProjectItems, dvProjectItem_id _ kv.2 h.1,
      dvProjectItems_id _ rest h.2]

/-- Subquery-free project items are unchanged by the main visitor. -/
theorem dvProjectItem_id (vs : VState) (item : ProjectItem)
    (h : itemHasSubquery item = false) : dvProjectItem vs item = (item, vs) := by
  cases item with
  | inclusion => simp [dvProjectItem]
  | exclusion => simp [dvProjectItem]
  | assignment e =>
    simp only [itemHasSubquery] at h
    simp [dvProjectItem, dvExpr_id _ e h]

/-- Subquery-free let-variable lists are unchanged by the main visitor. -/
theorem dvLetVars_id (vs : VState) (vars : List LetVariable)
    (h : letVarsHaveSubquery vars = false) : dvLetVars vs vars = (vars, vs) := by
  cases vars with
  | nil => simp [dvLetVars]
  | cons v rest =>
    cases v with
    | mk name e =>
      simp only [letVarsHaveSubquery, Bool.or_eq_false_iff] at h
      simp [dvLetVars, dvExpr_id _ e h.1, dvLetVars_id _ rest h.2]

/-- Subquery-free optional let-variable lists are unchanged by the main
visitor. -/
theorem dvOptLetVars_id (vs : VState) (lv : Option (List LetVariable))
    (h : optLetVarsHaveSubquery lv = false) : dvOptLetVars vs lv = (lv, vs) := by
  cases lv with
  | none => simp [dvOptLetVars]
  | some vars =>
    simp only [optLetVarsHaveSubquery] at h
    simp [dvOptLetVars, dvLetVars_id _ vars h]

end

end Air

/-- **C4.** In the subquery-expression desugarer's `visit_stage`: a stage
whose subtree has no subquery expression is returned unchanged (state
restored); when the walk replaces no subquery expression of the stage
itself (counter 0) the walked stage is returned as-is; when at least one
was replaced, the walked stage's source is set to the accumulated lookup
chain and a `Project` is appended whose specifications exclude each
generated `as_name` in order and include `_id` if and only if the stage is
a `Group`, excluding `_id` otherwise. -/
theorem stage_subquery_postprocess :
    (∀ (vs : Air.VState) (s : Air.Stage), Air.stageHasSubquery s = false →
       Air.dvStage vs s = (s, vs)) ∧
    (∀ (vs : Air.VState) (s walked : Air.Stage) (wvs : Air.VState),
       Air.dvWalkStage ⟨0, [], s.getSource⟩ s = (walked, wvs) →
       wvs.subquery_counter = 0 →
       Air.dvStage vs s = (walked, vs)) ∧
    (∀ (vs : Air.VState) (s walked : Air.Stage) (wvs : Air.VState),
       Air.dvWalkStage ⟨0, [], s.getSource⟩ s = (walked, wvs) →
       wvs.subquery_counter ≠ 0 →
       Air.dvStage vs s
         = (.project (walked.setSource wvs.subquery_lookups)
             (Air.exclusionSpecs wvs.as_names
               ((walked.setSource wvs.subquery_lookups).isGroup)), vs)) ∧
    (∀ (names : List String) (g : Bool),
       Air.exclusionSpecs names g
         = names.map (fun n => (n, Air.ProjectItem.exclusion))
             ++ [("_id", if g then Air.ProjectItem.inclusion
                         else Air.ProjectItem.exclusion)]) := by
  refine ⟨fun vs s h => Air.dvStage_id vs s h,
    fun vs s walked wvs hwalk hc => ?_,
    fun vs s walked wvs hwalk hc => ?_,
    fun names g => rfl⟩
  · rw [Air.dvStage_unfold]
    simp [hwalk, hc]
  · rw [Air.dvStage_unfold]
    simp [hwalk, hc]

/-- Witness for C4: a `Match` stage holding one plain Subquery expression
is rewritten so that its source becomes the generated `Lookup`, the
subquery expression becomes the `$let`/`$arrayElemAt` replacement, and an
exclusion `Project` (dropping `__subquery_result_0` and `_id`) is
appended; the visitor's incoming state is restored. -/
theorem stage_subquery_postprocess_witness :
    Air.dvStage ⟨5, ["a"], .collection "q" "q"⟩
      (.matchStage (.collection "db" "foo")
        (.subquery (.mk [] ["x"] (.limit (.collection "db" "bar") 1))))
      = (.project
          (.matchStage
            (.lookup (.collection "db" "foo") none
              (.limit (.collection "db" "bar") 1) "__subquery_result_0")
            (.letExpr
              [.mk "docExpr" (.mqlSemanticOperator .elemAt
                [.fieldRef "__subquery_result_0", .literal (.integer 0)])]
              (.variable "docExpr.x")))
          [("__subquery_result_0", .exclusion), ("_id", .exclusion)],
         ⟨5, ["a"], .collection "q" "q"⟩) := by
  have h := stage_subquery_postprocess.2.2.1 ⟨5, ["a"], .collection "q" "q"⟩
    (.matchStage (.collection "db" "foo")
      (.subquery (.mk [] ["x"] (.limit (.collection "db" "bar") 1))))
    (.matchStage (.collection "db" "foo")
      (.letExpr
        [.mk "docExpr" (.mqlSemanticOperator .elemAt
          [.fieldRef "__subquery_result_0", .literal (.integer 0)])]
        (.variable "docExpr.x")))
    ⟨1, ["__subquery_result_0"],
      .lookup (.collection "db" "foo") none
        (.limit (.collection "db" "bar") 1) "__subquery_result_0"⟩
    rfl (by decide)
  simpa [Air.Stage.setSource, Air.exclusionSpecs, Air.Stage.isGroup] using h


/-- Left-cancellation of string append. -/
theorem string_append_left_cancel (s : String) {a b : String}
    (h : s ++ a = s ++ b) : a = b := by
  have hd : s.data ++ a.data = s.data ++ b.data := by
    have h2 := congrArg String.data h
    simpa using h2
  have hab : a.data = b.data := List.append_cancel_left hd
  cases a
  cases b
  exact congrArg String.mk hab

set_option maxRecDepth 10000 in
set_option maxHeartbeats 1000000 in
/-- The decimal representations of `0, …, 255` are pairwise distinct. -/
theorem reprRange256Nodup : ((List.range 256).map Nat.repr).Nodup := by
  decide

/-- The generated `as_name`s for counters below `k ≤ 256` are pairwise
distinct. -/
theorem namesUpTo_nodup (k : Nat) (hk : k ≤ 256) :
    (Air.namesUpTo k).Nodup := by
  have hrange : List.range k = (List.range 256).take k := by
    rw [List.take_range, Nat.min_eq_left hk]
  have h1 : ((List.range k).map Nat.repr).Nodup := by
    rw [hrange, List.map_take]
    exact List.Nodup.sublist (List.take_sublist k _) reprRange256Nodup
  have h2 : Air.namesUpTo k
      = ((List.range k).map Nat.repr).map
          (fun t => "__subquery_result_" ++ t) := by
    simp [Air.namesUpTo, List.map_map]
  rw [h2]
  exact List.Nodup.map
    (fun x y hxy => string_append_left_cancel "__subquery_result_" hxy) h1

/-- The counter and name list after iterated `process_subquery_expr`
calls: starting at counter `k` with the names for `0, …, k-1`, as long as
the total stays at most 255 the `u8` increment never wraps and every name
generated extends the scheme. -/
theorem processCalls_spec :
    ∀ (args : List (List Air.LetVariable × Air.Stage)) (vs : Air.VState)
      (k : Nat),
      vs.subquery_counter = k → vs.as_names = Air.namesUpTo k →
      k + args.length ≤ 255 →
      (Air.processCalls vs args).subquery_counter = k + args.length ∧
      (Air.processCalls vs args).as_names = Air.namesUpTo (k + args.length)
  | [], vs, k, h1, h2, h3 => by
    simp [Air.processCalls, h1, h2]
  | a :: rest, vs, k, h1, h2, h3 => by
    have hlen : k + 1 + rest.length ≤ 255 := by
      simp only [List.length_cons] at h3
      omega
    have hc1 : (Air.processSubqueryExpr vs a.1 a.2).2.subquery_counter
        = k + 1 := by
      simp only [Air.processSubqueryExpr, h1]
      exact Nat.mod_eq_of_lt (by omega)
    have hn1 : (Air.processSubqueryExpr vs a.1 a.2).2.as_names
        = Air.namesUpTo (k + 1) := by
      simp only [Air.processSubqueryExpr, h1, h2]
      simp [Air.namesUpTo, List.range_succ]
    have hrec := processCalls_spec rest (Air.processSubqueryExpr vs a.1 a.2).2
      (k + 1) hc1 hn1 hlen
    have hstep : Air.processCalls vs (a :: rest)
        = Air.processCalls (Air.processSubqueryExpr vs a.1 a.2).2 rest := rfl
    have harith : k + 1 + rest.length = k + (a :: rest).length := by
      simp only [List.length_cons]
      omega
    rw [hstep, ← harith]
    exact hrec

/-- **C10.** `process_subquery_expr` increments the per-stage `u8`
counter once per subquery expression and pushes the name
`__subquery_result_<counter>`; each of the three desugar functions calls
it exactly once on its subquery's let bindings and pipeline; and from the
per-stage reset state, a stage with at most 255 subquery expressions
drives the counter to exactly the number of expressions with no `u8`
wrap-around, with the generated `as_names` pairwise distinct. -/
theorem subquery_counter_and_names :
    (∀ (vs : Air.VState) (lb : List Air.LetVariable) (p : Air.Stage),
       (Air.processSubqueryExpr vs lb p).2.subquery_counter
         = (vs.subquery_counter + 1) % 256 ∧
       (Air.processSubqueryExpr vs lb p).2.as_names
         = vs.as_names
             ++ ["__subquery_result_" ++ Nat.repr vs.subquery_counter]) ∧
    (∀ (vs : Air.VState) (lb : List Air.LetVariable) (path : List String)
        (p : Air.Stage),
       (Air.desugarSubquery vs (.mk lb path p)).2
         = (Air.processSubqueryExpr vs lb p).2) ∧
    (∀ (vs : Air.VState) (op : Air.SubqueryComparisonOp)
        (md : Air.SubqueryModifier) (arg : Air.Expression)
        (lb : List Air.LetVariable) (path : List String) (p : Air.Stage),
       (Air.desugarSubqueryComparison vs (.mk op md arg (.mk lb path p))).2
         = (Air.processSubqueryExpr vs lb p).2) ∧
    (∀ (vs : Air.VState) (lb : List Air.LetVariable) (p : Air.Stage),
       (Air.desugarSubqueryExists vs (.mk lb p)).2
         = (Air.processSubqueryExpr vs lb p).2) ∧
    (∀ (args : List (List Air.LetVariable × Air.Stage)) (src : Air.Stage),
       args.length ≤ 255 →
       (Air.processCalls ⟨0, [], src⟩ args).subquery_counter = args.length ∧
       (Air.processCalls ⟨0, [], src⟩ args).as_names
         = Air.namesUpTo args.length ∧
       (Air.namesUpTo args.length).Nodup) := by
  refine ⟨fun vs lb p => ⟨rfl, rfl⟩, fun vs lb path p => rfl,
    fun vs op md arg lb path p => rfl, fun vs lb p => rfl,
    fun args src hlen => ?_⟩
  have h := processCalls_spec args ⟨0, [], src⟩ 0 rfl rfl (by omega)
  simp only [Nat.zero_add] at h
  exact ⟨h.1, h.2, namesUpTo_nodup args.length (by omega)⟩

/-- Witness for C10: two subquery expressions in a stage yield counter 2
and the distinct names `__subquery_result_0`, `__subquery_result_1`. -/
theorem subquery_counter_and_names_witness :
    (Air.processCalls ⟨0, [], .collection "db" "c"⟩
      [([], .collection "db" "s1"), ([], .collection "db" "s2")]
      ).subquery_counter = 2 ∧
    (Air.processCalls ⟨0, [], .collection "db" "c"⟩
      [([], .collection "db" "s1"), ([], .collection "db" "s2")]).as_names
      = ["__subquery_result_0", "__subquery_result_1"] ∧
    (["__subquery_result_0", "__subquery_result_1"] : List String).Nodup := by
  have h := subquery_counter_and_names.2.2.2.2
    [([], .collection "db" "s1"), ([], .collection "db" "s2")]
    (.collection "db" "c") (by norm_num)
  have hnames : Air.namesUpTo 2
      = ["__subquery_result_0", "__subquery_result_1"] := rfl
  refine ⟨h.1, ?_, ?_⟩
  · rw [h.2.1]
    exact hnames
  · exact hnames ▸ h.2.2

end MongoSql